import Mathlib

/-!
# Verification of the ferrite kernel memory subsystem

A shallow embedding, in Lean 4, of the memory-management core of the
`ferrite` kernel (32-bit x86): the bitmap frame allocator
(`src/kernel/src/memory/frame.rs`), the two-level paging layer
(`memory/paging.rs`), the boot-time memblock allocator
(`memory/memblock.rs`), the buddy allocator (`memory/buddy.rs`) and the
slab caches with the global heap dispatcher (`memory/slab.rs`,
`memory/allocator.rs`).

Machine integers (`usize` = 32 bits on this i386 target, bitmap words
`u64`) are modelled as `Nat` with explicit masking/`% 2^w` where the code
relies on fixed-width behaviour.  Rust `panic!`/failed `expect` is
modelled with `Except String`; functions whose only failure mode is a
null-pointer return are modelled with `Option`.  Fixed-size arrays are
modelled as lists whose length equals the array's length; `for i in
a..LEN` loops become structural recursion over the remaining entries.
-/

set_option maxRecDepth 8000

namespace Ferrite

/-- `PAGE_SIZE = 4096` (`memory/mod.rs`). -/
def PAGE_SIZE : Nat := 4096

/-- `KERNEL_OFFSET = 0xc0000000` (`memory/mod.rs`). -/
def KERNEL_OFFSET : Nat := 0xc0000000

/-! ## Frame allocator (`memory/frame.rs`)

The static `FRAME_BITMAP` is an array of `u64` words, one bit per 4 KiB
frame, bit = 1 meaning used, together with the atomic search hint
`next_free_idx`.  We model the bitmap as a list of `Nat` (each entry a
`u64` word value) and the allocator state as the bitmap plus the hint.
The loop bound `BITMAP_ARRAY_SIZE` is the length of the array, i.e. the
length of the modelled list. -/

/-- `TOTAL_FRAMES = usize::MAX / PAGE_SIZE + 1` with 32-bit `usize`. -/
def TOTAL_FRAMES : Nat := (2 ^ 32 - 1) / PAGE_SIZE + 1

/-- `BITMAP_ENTRY_SIZE_BITS = u64::BITS`. -/
def BITMAP_ENTRY_SIZE_BITS : Nat := 64

/-- `u64::MAX`. -/
def U64_MAX : Nat := 2 ^ 64 - 1

/-- State of `FrameAllocator` together with the `FRAME_BITMAP` it
manages: the word array and the `next_free_idx` hint. -/
structure FrameState where
  bitmap : List Nat
  nextFreeIdx : Nat
  deriving Repr, DecidableEq

/-- Bit `bitIdx` of word `w` (as a `u64` value), i.e. `w & (1 << bitIdx) != 0`. -/
def wordBit (w bitIdx : Nat) : Bool :=
  w &&& (1 <<< bitIdx) != 0

/-- Inner loop of `allocate_frame`: scan bits `bitIdx, bitIdx+1, ...` of
word `entryIdx` (value `w`); return the first bit that is clear and whose
frame index `entryIdx * 64 + bitIdx` is `< TOTAL_FRAMES` (the code
`continue`s past out-of-range frames). `fuel` counts the bits left to
scan, starting at `BITMAP_ENTRY_SIZE_BITS`. -/
def allocScanBits (entryIdx w : Nat) : Nat → Nat → Option Nat
  | 0, _ => none
  | fuel + 1, bitIdx =>
    if wordBit w bitIdx = false ∧ entryIdx * BITMAP_ENTRY_SIZE_BITS + bitIdx < TOTAL_FRAMES then
      some (entryIdx * BITMAP_ENTRY_SIZE_BITS + bitIdx)
    else
      allocScanBits entryIdx w fuel (bitIdx + 1)

/-- Outer loop of `allocate_frame`: scan words `entryIdx, entryIdx+1, ...`
up to the end of the bitmap; on the first word `!= u64::MAX`, scan its
bits.  Returns the claimed frame index together with the updated state
(bit set, hint stored), or `none` when the scan is exhausted.  `fuel` is
the number of words left (`BITMAP_ARRAY_SIZE - entryIdx`). -/
def allocScanWords (st : FrameState) : Nat → Nat → Option Nat × FrameState
  | 0, _ => (none, st)
  | fuel + 1, entryIdx =>
    let w := st.bitmap.getD entryIdx 0
    if w ≠ U64_MAX then
      match allocScanBits entryIdx w BITMAP_ENTRY_SIZE_BITS 0 with
      | some frameIdx =>
        let bitIdx := frameIdx - entryIdx * BITMAP_ENTRY_SIZE_BITS
        (some frameIdx,
          { bitmap := st.bitmap.set entryIdx (w ||| (1 <<< bitIdx)),
            nextFreeIdx := entryIdx })
      | none => allocScanWords st fuel (entryIdx + 1)
    else
      allocScanWords st fuel (entryIdx + 1)

/-- `FrameAllocator::allocate_frame`: scan from the hint forward; on
success return `frame_idx * PAGE_SIZE` and the updated state. -/
def allocateFrame (st : FrameState) : Option Nat × FrameState :=
  match allocScanWords st (st.bitmap.length - st.nextFreeIdx) st.nextFreeIdx with
  | (some frameIdx, st') => (some (frameIdx * PAGE_SIZE), st')
  | (none, st') => (none, st')

/-- `FrameAllocator::deallocate_frame`: clear the frame's bit; warn
(return unchanged) when out of the tracked range or when the bit is
already clear (double free); pull the hint back when the freed word is
below it. -/
def deallocateFrame (st : FrameState) (frame : Nat) : FrameState :=
  let frameIdx := frame / PAGE_SIZE
  if frameIdx ≥ TOTAL_FRAMES then st
  else
    let entryIdx := frameIdx / BITMAP_ENTRY_SIZE_BITS
    let bitIdx := frameIdx % BITMAP_ENTRY_SIZE_BITS
    let w := st.bitmap.getD entryIdx 0
    if w &&& (1 <<< bitIdx) = 0 then st
    else
      { bitmap := st.bitmap.set entryIdx (w &&& (U64_MAX ^^^ (1 <<< bitIdx))),
        nextFreeIdx := if entryIdx < st.nextFreeIdx then entryIdx else st.nextFreeIdx }

/-! ### Frame allocator lemmas -/

theorem wordBit_eq_testBit (w b : Nat) : wordBit w b = w.testBit b := by
  unfold wordBit
  rw [Nat.shiftLeft_eq, one_mul, Nat.and_two_pow]
  cases h : w.testBit b
  · simp
  · simp [(Nat.two_pow_pos b).ne']

theorem allocScanBits_eq_some {e w f : Nat} : ∀ {fuel b : Nat},
    allocScanBits e w fuel b = some f →
    ∃ bi, b ≤ bi ∧ bi < b + fuel ∧ f = e * BITMAP_ENTRY_SIZE_BITS + bi ∧
      w.testBit bi = false ∧ f < TOTAL_FRAMES := by
  intro fuel
  induction fuel with
  | zero => intro b h; simp [allocScanBits] at h
  | succ n ih =>
    intro b h
    rw [allocScanBits] at h
    split at h
    · rename_i hcond
      rw [wordBit_eq_testBit] at hcond
      injection h with h
      exact ⟨b, le_refl b, by omega, by omega, hcond.1, by omega⟩
    · obtain ⟨bi, h1, h2, h3, h4, h5⟩ := ih h
      exact ⟨bi, by omega, by omega, h3, h4, h5⟩

theorem allocScanWords_eq_some {st : FrameState} {f : Nat} {st' : FrameState} :
    ∀ {fuel e : Nat}, allocScanWords st fuel e = (some f, st') →
    ∃ ei bi, e ≤ ei ∧ ei < e + fuel ∧ bi < BITMAP_ENTRY_SIZE_BITS ∧
      f = ei * BITMAP_ENTRY_SIZE_BITS + bi ∧
      (st.bitmap.getD ei 0).testBit bi = false ∧ f < TOTAL_FRAMES ∧
      st' = { bitmap := st.bitmap.set ei ((st.bitmap.getD ei 0) ||| (1 <<< bi)),
              nextFreeIdx := ei } := by
  intro fuel
  induction fuel with
  | zero => intro e h; simp [allocScanWords] at h
  | succ n ih =>
    intro e h
    rw [allocScanWords] at h
    split at h
    · split at h
      · rename_i frameIdx hbits
        obtain ⟨bi, _, hbi, hf, hclear, htot⟩ := allocScanBits_eq_some hbits
        injection h with h1 h2
        injection h1 with h1
        refine ⟨e, bi, le_refl e, by omega, by omega, by omega, hclear, by omega, ?_⟩
        rw [← h2]
        have : frameIdx - e * BITMAP_ENTRY_SIZE_BITS = bi := by omega
        rw [this]
      · obtain ⟨ei, bi, h1, h2, h3, h4, h5, h6, h7⟩ := ih h
        exact ⟨ei, bi, by omega, by omega, h3, h4, h5, h6, h7⟩
    · obtain ⟨ei, bi, h1, h2, h3, h4, h5, h6, h7⟩ := ih h
      exact ⟨ei, bi, by omega, by omega, h3, h4, h5, h6, h7⟩

/-- What a successful `allocate_frame` guarantees: the returned address is
`frame * PAGE_SIZE` for a frame whose bit was clear beforehand and is set
afterwards (the word index stays inside the bitmap). -/
theorem allocateFrame_some_spec {st : FrameState} {a : Nat} {st₁ : FrameState}
    (h : allocateFrame st = (some a, st₁)) :
    a % PAGE_SIZE = 0 ∧
    a / PAGE_SIZE / BITMAP_ENTRY_SIZE_BITS < st.bitmap.length ∧
    (st.bitmap.getD (a / PAGE_SIZE / BITMAP_ENTRY_SIZE_BITS) 0).testBit
      (a / PAGE_SIZE % BITMAP_ENTRY_SIZE_BITS) = false ∧
    (st₁.bitmap.getD (a / PAGE_SIZE / BITMAP_ENTRY_SIZE_BITS) 0).testBit
      (a / PAGE_SIZE % BITMAP_ENTRY_SIZE_BITS) = true ∧
    st₁.bitmap.length = st.bitmap.length := by
  unfold allocateFrame at h
  split at h
  · rename_i frameIdx st'' hscan
    injection h with h1 h2
    injection h1 with h1
    obtain ⟨ei, bi, hle, hlt, hbi, hf, hclear, htot, hst⟩ := allocScanWords_eq_some hscan
    have hei : ei < st.bitmap.length := by
      rcases le_or_lt st.nextFreeIdx st.bitmap.length with hc | hc
      · omega
      · have : st.bitmap.length - st.nextFreeIdx = 0 := by omega
        omega
    have hB : BITMAP_ENTRY_SIZE_BITS = 64 := rfl
    have hP : PAGE_SIZE = 4096 := rfl
    have ha : a = frameIdx * PAGE_SIZE := by omega
    have hgeq : a / PAGE_SIZE = frameIdx := by rw [ha, hP]; omega
    have hdiv : frameIdx / BITMAP_ENTRY_SIZE_BITS = ei := by
      rw [hB] at hf hbi ⊢; omega
    have hmod : frameIdx % BITMAP_ENTRY_SIZE_BITS = bi := by
      rw [hB] at hf hbi ⊢; omega
    subst h2
    rw [hst]
    refine ⟨by rw [ha, hP]; omega, ?_, ?_, ?_, ?_⟩
    · rw [hgeq, hdiv]; simpa using hei
    · rw [hgeq, hdiv, hmod]; exact hclear
    · rw [hgeq, hdiv, hmod]
      have hupdate : (st.bitmap.set ei (st.bitmap.getD ei 0 ||| 1 <<< bi)).getD ei 0
          = st.bitmap.getD ei 0 ||| 1 <<< bi := by
        simp [List.getD, List.getElem?_set_eq_of_lt, hei]
      rw [hupdate]
      simp [Nat.testBit_or, Nat.shiftLeft_eq, Nat.testBit_two_pow_self]
    · simp
  · exact absurd h (by simp)

/-- The word scan steps over a word that is all ones. -/
theorem allocScanWords_skip {st : FrameState} {e : Nat} (fuel : Nat)
    (h : st.bitmap.getD e 0 = U64_MAX) :
    allocScanWords st (fuel + 1) e = allocScanWords st fuel (e + 1) := by
  have h' : st.bitmap[e]?.getD 0 = U64_MAX := by simpa [List.getD] using h
  rw [allocScanWords]
  simp [List.getD, h']

/-- The word scan steps over a run of all-ones words. -/
theorem allocScanWords_skip_run {st : FrameState} :
    ∀ (k : Nat) {e : Nat} (fuel : Nat),
    (∀ j, e ≤ j → j < e + k → st.bitmap.getD j 0 = U64_MAX) →
    allocScanWords st (k + fuel) e = allocScanWords st fuel (e + k) := by
  intro k
  induction k with
  | zero => intro e fuel _; rw [Nat.zero_add, Nat.add_zero]
  | succ n ih =>
    intro e fuel hrun
    have h1 : (n + 1) + fuel = (n + fuel) + 1 := by omega
    rw [h1, allocScanWords_skip (n + fuel) (hrun e (le_refl e) (by omega))]
    rw [ih fuel (fun j hj1 hj2 => hrun j (by omega) (by omega))]
    congr 1
    omega

/-- The bit scan returns the lowest clear bit of the word (when that bit's
frame index is in range). -/
theorem allocScanBits_first {e w b : Nat} :
    ∀ (fuel i : Nat), i ≤ b → b < i + fuel →
    (∀ j, i ≤ j → j < b → w.testBit j = true) → w.testBit b = false →
    e * BITMAP_ENTRY_SIZE_BITS + b < TOTAL_FRAMES →
    allocScanBits e w fuel i = some (e * BITMAP_ENTRY_SIZE_BITS + b) := by
  intro fuel
  induction fuel with
  | zero => intro i _ _ _ _ _; omega
  | succ n ih =>
    intro i hib hlt hset hclear htot
    rw [allocScanBits]
    rcases Nat.eq_or_lt_of_le hib with heq | hlt'
    · subst heq
      rw [if_pos ⟨by rw [wordBit_eq_testBit]; exact hclear, htot⟩]
    · rw [if_neg, ih (i + 1) hlt' (by omega) (fun j hj1 hj2 => hset j (by omega) hj2) hclear htot]
      rw [wordBit_eq_testBit, hset i (le_refl i) hlt']
      simp

theorem getD_set_ne {l : List Nat} {i j v : Nat} (h : i ≠ j) :
    (l.set i v).getD j 0 = l.getD j 0 := by
  simp [List.getD, List.getElem?_set_ne h]

theorem getD_set_self {l : List Nat} {i v : Nat} (h : i < l.length) :
    (l.set i v).getD i 0 = v := by
  simp [List.getD, List.getElem?_set_eq_of_lt, h]

theorem and_shiftLeft_ne_zero_of_testBit {w b : Nat} (h : w.testBit b = true) :
    w &&& (1 <<< b) ≠ 0 := by
  intro h0
  have h1 : (w &&& (1 <<< b)).testBit b = false := by rw [h0]; simp
  simp [Nat.testBit_and, h, Nat.shiftLeft_eq, Nat.testBit_two_pow] at h1

theorem U64_MAX_testBit {b : Nat} (hb : b < 64) : (U64_MAX).testBit b = true := by
  rw [U64_MAX, Nat.testBit_two_pow_sub_one]
  simpa using hb

theorem cleared_word_testBit_lt {bit j : Nat} (hj : j < 64) (hne : j ≠ bit) :
    (U64_MAX &&& (U64_MAX ^^^ (1 <<< bit))).testBit j = true := by
  have hne' : bit ≠ j := Ne.symm hne
  rw [Nat.testBit_and, Nat.testBit_xor, U64_MAX_testBit hj, Nat.shiftLeft_eq, one_mul,
    Nat.testBit_two_pow]
  simp [hne']

theorem cleared_word_testBit_self {bit : Nat} (hbit : bit < 64) :
    (U64_MAX &&& (U64_MAX ^^^ (1 <<< bit))).testBit bit = false := by
  rw [Nat.testBit_and, Nat.testBit_xor, U64_MAX_testBit hbit, Nat.shiftLeft_eq, one_mul,
    Nat.testBit_two_pow]
  simp

theorem cleared_word_ne {bit : Nat} (hbit : bit < 64) :
    U64_MAX &&& (U64_MAX ^^^ (1 <<< bit)) ≠ U64_MAX := by
  intro h
  have h1 := cleared_word_testBit_self hbit
  rw [h, U64_MAX_testBit hbit] at h1
  cases h1

/-- **C6** (amended).  (i) Two successive `allocate_frame()` calls with no
intervening `deallocate_frame` return distinct frame addresses.  (ii) For
an in-range, page-aligned, allocated frame `p`, immediately after
`deallocate_frame(p)` the next `allocate_frame()` returns `p` *provided
every other tracked frame is allocated* (otherwise-fully-used allocator);
with other free frames at lower indices the scan can return a different
frame (see the counterexample). -/
theorem frame_alloc_distinct_and_free_reuse :
    (∀ (st st₁ st₂ : FrameState) (a b : Nat),
        allocateFrame st = (some a, st₁) → allocateFrame st₁ = (some b, st₂) → a ≠ b) ∧
    (∀ (st : FrameState) (p : Nat),
        p % PAGE_SIZE = 0 →
        p / PAGE_SIZE < TOTAL_FRAMES →
        p / PAGE_SIZE < BITMAP_ENTRY_SIZE_BITS * st.bitmap.length →
        (∀ e, e < st.bitmap.length → st.bitmap.getD e 0 = U64_MAX) →
        (allocateFrame (deallocateFrame st p)).1 = some p) := by
  constructor
  · intro st st₁ st₂ a b h1 h2 heq
    obtain ⟨_, _, _, hset1, _⟩ := allocateFrame_some_spec h1
    obtain ⟨_, _, hclear2, _, _⟩ := allocateFrame_some_spec h2
    rw [← heq] at hclear2
    rw [hset1] at hclear2
    cases hclear2
  · intro st p hp htot hrange hfull
    have hB : BITMAP_ENTRY_SIZE_BITS = 64 := rfl
    have hP : PAGE_SIZE = 4096 := rfl
    rw [hB] at hrange
    rw [hP] at hp
    set fr := p / PAGE_SIZE with hfr
    have hfr' : fr = p / 4096 := by rw [hfr, hP]
    set entry := fr / 64 with hentry
    set bit := fr % 64 with hbit
    have hbit64 : bit < 64 := Nat.mod_lt _ (by norm_num)
    have hentrylen : entry < st.bitmap.length := by omega
    have hw : st.bitmap.getD entry 0 = U64_MAX := hfull entry hentrylen
    -- the deallocation clears exactly bit `bit` of word `entry`
    have hd : deallocateFrame st p =
        { bitmap := st.bitmap.set entry (U64_MAX &&& (U64_MAX ^^^ (1 <<< bit))),
          nextFreeIdx := if entry < st.nextFreeIdx then entry else st.nextFreeIdx } := by
      unfold deallocateFrame
      rw [← hfr]
      rw [if_neg (by omega : ¬fr ≥ TOTAL_FRAMES)]
      rw [hB, ← hentry, ← hbit]
      dsimp only
      rw [hw]
      rw [if_neg (and_shiftLeft_ne_zero_of_testBit (U64_MAX_testBit hbit64))]
    rw [hd]
    set st' : FrameState :=
        { bitmap := st.bitmap.set entry (U64_MAX &&& (U64_MAX ^^^ (1 <<< bit))),
          nextFreeIdx := if entry < st.nextFreeIdx then entry else st.nextFreeIdx } with hst'
    have hlen' : st'.bitmap.length = st.bitmap.length := by
      rw [hst']; simp
    set nh := st'.nextFreeIdx with hnh
    have hnhe : nh ≤ entry := by
      rw [hnh, hst']
      dsimp only
      split <;> omega
    -- words strictly before `entry` are still all ones
    have hrun : ∀ j, nh ≤ j → j < nh + (entry - nh) → st'.bitmap.getD j 0 = U64_MAX := by
      intro j hj1 hj2
      rw [hst']
      dsimp only
      rw [getD_set_ne (by omega)]
      exact hfull j (by omega)
    -- word `entry` now has exactly bit `bit` clear
    have hw' : st'.bitmap.getD entry 0 = U64_MAX &&& (U64_MAX ^^^ (1 <<< bit)) := by
      rw [hst']
      dsimp only
      exact getD_set_self hentrylen
    have hfuel : st'.bitmap.length - nh = (entry - nh) + (st.bitmap.length - entry) := by
      omega
    have hbits : allocScanBits entry (U64_MAX &&& (U64_MAX ^^^ (1 <<< bit)))
        BITMAP_ENTRY_SIZE_BITS 0 = some (entry * BITMAP_ENTRY_SIZE_BITS + bit) := by
      apply allocScanBits_first _ 0 (Nat.zero_le _) (by rw [hB]; omega)
      · intro j _ hj2
        exact cleared_word_testBit_lt (by omega) (by omega)
      · exact cleared_word_testBit_self hbit64
      · rw [hB]
        have : entry * 64 + bit = fr := by omega
        rw [this, ← hfr'] at *
        omega
    obtain ⟨k, hk⟩ : ∃ k, st.bitmap.length - entry = k + 1 := ⟨st.bitmap.length - entry - 1, by omega⟩
    have hscan : allocScanWords st' (st'.bitmap.length - nh) nh =
        (some (entry * BITMAP_ENTRY_SIZE_BITS + bit),
          { bitmap := st'.bitmap.set entry
              ((U64_MAX &&& (U64_MAX ^^^ (1 <<< bit))) |||
                (1 <<< ((entry * BITMAP_ENTRY_SIZE_BITS + bit) - entry * BITMAP_ENTRY_SIZE_BITS))),
            nextFreeIdx := entry }) := by
      rw [hfuel, allocScanWords_skip_run (entry - nh) _ hrun]
      have he : nh + (entry - nh) = entry := by omega
      rw [he, hk, allocScanWords]
      rw [hw']
      rw [if_pos (cleared_word_ne hbit64), hbits]
    unfold allocateFrame
    rw [hscan]
    dsimp only
    have hfin : (entry * BITMAP_ENTRY_SIZE_BITS + bit) * PAGE_SIZE = p := by
      rw [hB, hP]
      have h1 : entry * 64 + bit = fr := by omega
      rw [h1]
      omega
    rw [hfin]

/-- **C6** counterexample.  In a state where frame 1 is free and frame 5 is
allocated (word 0 is `u64::MAX` with bit 1 clear), deallocating frame 5
(address `20480`) and then calling `allocate_frame` returns frame 1
(address `4096`), not `20480`: the claim that the freed frame is the next
to be returned is false on this input. -/
theorem frame_alloc_free_reuse_counterexample :
    wordBit ((FrameState.mk [U64_MAX - 2] 0).bitmap.getD 0 0) 5 = true ∧
    20480 / PAGE_SIZE < TOTAL_FRAMES ∧
    (allocateFrame (deallocateFrame ⟨[U64_MAX - 2], 0⟩ 20480)).1 = some 4096 ∧
    (4096 : Nat) ≠ 20480 := by
  refine ⟨by decide, by decide, ?_, by decide⟩
  decide

/-- Witness for C6: the theorem applied at concrete states — two
successive allocations out of a one-word bitmap return `0` and `4096`
(distinct), and on an otherwise-full bitmap the freed frame `12288` is
re-returned. -/
theorem frame_alloc_distinct_and_free_reuse_witness :
    (0 : Nat) ≠ 4096 ∧
    (allocateFrame (deallocateFrame ⟨[U64_MAX], 0⟩ 12288)).1 = some 12288 :=
  ⟨frame_alloc_distinct_and_free_reuse.1 ⟨[0], 0⟩ ⟨[1], 0⟩ ⟨[3], 0⟩ 0 4096
      (by decide) (by decide),
   frame_alloc_distinct_and_free_reuse.2 ⟨[U64_MAX], 0⟩ 12288 (by decide) (by decide)
      (by decide) (by decide)⟩

/-! ## Paging layer (`memory/paging.rs`)

32-bit two-level paging: a page directory of 1024 `u32` entries and page
tables of 1024 `u32` entries each, reached through the kernel's direct
map.  The state keeps the directory of the active `CR3` as a function
from index to entry and the page-table memory as a function from the
table's physical base address to its entries.  `invlpg` invocations are
logged in `invalidated` (most recent first).  Page-table entries are
`u32` values, modelled as `Nat` with explicit `% 2^32` at the `as u32`
casts. -/

/-- `PDE_PRESENT` / `flags::PRESENT` (bit 0). -/
def PDE_PRESENT : Nat := 1 <<< 0

/-- `PDE_WRITABLE` / `flags::WRITABLE` (bit 1). -/
def PDE_WRITABLE : Nat := 1 <<< 1

/-- `PDE_PSE` / `flags::PAGE_SIZE_EXT` (bit 7, 4 MiB page). -/
def PDE_PSE : Nat := 1 <<< 7

/-- `ADDR_MASK_4KIB_PTE`. -/
def ADDR_MASK_4KIB_PTE : Nat := 0xfffff000

/-- `ADDR_MASK_4MIB_PDE`. -/
def ADDR_MASK_4MIB_PDE : Nat := 0xffc00000

/-- `ADDR_MASK_PDE_TO_PT`. -/
def ADDR_MASK_PDE_TO_PT : Nat := 0xfffff000

/-- `PAGE_SIZE_4MIB = 4 * 1024 * 1024`. -/
def PAGE_SIZE_4MIB : Nat := 4 * 1024 * 1024

/-- Pointwise update of a function `Nat → Nat` (a memory write). -/
def updFn (f : Nat → Nat) (i v : Nat) : Nat → Nat :=
  fun x => if x = i then v else f x

/-- Pointwise update of the page-table memory at one table base. -/
def updPt (pts : Nat → (Nat → Nat)) (b : Nat) (t : Nat → Nat) : Nat → (Nat → Nat) :=
  fun x => if x = b then t else pts x

/-- State touched by `map_page` / `unmap_page` / `translate`: the frame
allocator, the `CR3` root, the page directory at that root, the
page-table memory, and the log of `invlpg`-invalidated addresses. -/
structure PagingState where
  frames : FrameState
  cr3 : Nat
  pd : Nat → Nat
  pts : Nat → (Nat → Nat)
  invalidated : List Nat

/-- `translate(virt_addr)`: walk `PD[v >> 22]`; absent → `None`; PSE set →
4 MiB page; otherwise walk `PT[(v >> 12) & 0x3ff]`. -/
def translate (st : PagingState) (virtAddr : Nat) : Option Nat :=
  let pde := st.pd (virtAddr >>> 22)
  if pde &&& PDE_PRESENT = 0 then
    none
  else if pde &&& PDE_PSE ≠ 0 then
    some ((pde &&& ADDR_MASK_4MIB_PDE) + (virtAddr &&& (PAGE_SIZE_4MIB - 1)))
  else
    let ptPhys := pde &&& ADDR_MASK_PDE_TO_PT
    let pte := st.pts ptPhys ((virtAddr >>> 12) &&& 0x3ff)
    if pte &&& PDE_PRESENT = 0 then
      none
    else
      some ((pte &&& ADDR_MASK_4KIB_PTE) + (virtAddr &&& (PAGE_SIZE - 1)))

/-- `map_page(phys_addr, virt_addr, flags)`.  Asserts both addresses
page-aligned.  Absent PDE: allocate a fresh frame for a page table, zero
it, install the PDE with `PRESENT|WRITABLE` (frame-allocation failure is
a fatal `expect`).  PSE PDE: panic (map conflict).  Then write the PTE
`phys | (flags & 0xfff) | PRESENT` and `invlpg` the address. -/
def mapPage (st : PagingState) (physAddr virtAddr flags : Nat) : Except String PagingState :=
  if ¬physAddr % PAGE_SIZE = 0 then .error "assert failed: phys_addr.is_aligned(PAGE_SIZE)"
  else if ¬virtAddr % PAGE_SIZE = 0 then .error "assert failed: virt_addr.is_aligned(PAGE_SIZE)"
  else
    let pdeIdx := virtAddr >>> 22
    let pde := st.pd pdeIdx
    (if pde &&& PDE_PRESENT = 0 then
      match allocateFrame st.frames with
      | (none, _) => .error "Allocation Failed: Could not allocate frame for new page table"
      | (some newPtFrame, frames') =>
        .ok (newPtFrame,
          { st with
            frames := frames',
            pts := updPt st.pts newPtFrame (fun _ => 0),
            pd := updFn st.pd pdeIdx
              ((newPtFrame % 2 ^ 32) ||| PDE_PRESENT ||| PDE_WRITABLE) })
    else if pde &&& PDE_PSE ≠ 0 then
      .error "Conflict: Tried to map 4KiB page into a 4MiB mapped region"
    else
      .ok (pde &&& ADDR_MASK_PDE_TO_PT, st) : Except String (Nat × PagingState)).bind
      fun x =>
        let ptPhys := x.1
        let st₁ := x.2
        let pteIdx := (virtAddr >>> 12) &&& 0x3ff
        let newPte := (physAddr % 2 ^ 32) ||| (flags &&& 0xfff) ||| PDE_PRESENT
        .ok { st₁ with
              pts := updPt st₁.pts ptPhys (updFn (st₁.pts ptPhys) pteIdx newPte),
              invalidated := virtAddr :: st₁.invalidated }

/-- The `unmap_page` emptiness scan over the (already cleared) table:
`true` iff no entry has the `PRESENT` bit. -/
def ptIsEmpty (t : Nat → Nat) : Bool :=
  (List.range 1024).all fun i => t i &&& PDE_PRESENT == 0

/-- `unmap_page(virt_addr)`: asserts alignment; panics when the PDE is
absent, when the PDE is a 4 MiB (PSE) mapping, or when the PTE is absent.
Otherwise clears the PTE, issues `invlpg`, returns the mapped frame to
the frame allocator, and — when the page table holds no present entry —
returns the page-table frame too and zeroes the PDE. -/
def unmapPage (st : PagingState) (virtAddr : Nat) : Except String PagingState :=
  if ¬virtAddr % PAGE_SIZE = 0 then .error "assert failed: virt_addr.is_aligned(PAGE_SIZE)"
  else
    let pdeIdx := virtAddr >>> 22
    let pde := st.pd pdeIdx
    if pde &&& PDE_PRESENT = 0 then
      .error "Attempted to unmap unmapped virtual address (PDE not present)"
    else if pde &&& PDE_PSE ≠ 0 then
      .error "Attempted to unmap 4MiB page using 4KiB unmap function"
    else
      let ptPhys := pde &&& ADDR_MASK_PDE_TO_PT
      let pteIdx := (virtAddr >>> 12) &&& 0x3ff
      let pte := st.pts ptPhys pteIdx
      if pte &&& PDE_PRESENT = 0 then
        .error "Attempted to unmap unmapped virtual address (PTE not present)"
      else
        let mappedFrame := pte &&& ADDR_MASK_4KIB_PTE
        let table' := updFn (st.pts ptPhys) pteIdx 0
        let frames' := deallocateFrame st.frames mappedFrame
        if ptIsEmpty table' then
          .ok { frames := deallocateFrame frames' ptPhys,
                cr3 := st.cr3,
                pd := updFn st.pd pdeIdx 0,
                pts := updPt st.pts ptPhys table',
                invalidated := virtAddr :: st.invalidated }
        else
          .ok { st with
                frames := frames',
                pts := updPt st.pts ptPhys table',
                invalidated := virtAddr :: st.invalidated }

/-! ### Paging lemmas -/

theorem updFn_self (f : Nat → Nat) (i v : Nat) : updFn f i v i = v := by
  simp [updFn]

theorem updFn_ne (f : Nat → Nat) {i j : Nat} (v : Nat) (h : j ≠ i) : updFn f i v j = f j := by
  simp [updFn, h]

theorem updPt_self (pts : Nat → (Nat → Nat)) (b : Nat) (t : Nat → Nat) : updPt pts b t b = t := by
  simp [updPt]

theorem aligned_testBit_low {x i : Nat} (hx : x % 4096 = 0) (hi : i < 12) :
    x.testBit i = false := by
  have h := Nat.testBit_mod_two_pow x 12 i
  rw [show (2 : Nat) ^ 12 = 4096 from rfl, hx] at h
  simp [hi] at h
  exact h

theorem mask_pt_testBit (i : Nat) :
    (0xfffff000 : Nat).testBit i = (decide (12 ≤ i) && decide (i < 32)) := by
  have h : (0xfffff000 : Nat) = (2 ^ 20 - 1) <<< 12 := by norm_num [Nat.shiftLeft_eq]
  rw [h, Nat.testBit_shiftLeft, Nat.testBit_two_pow_sub_one]
  by_cases h12 : 12 ≤ i
  · simp only [ge_iff_le, h12, decide_True, Bool.true_and]
    exact decide_eq_decide.mpr (by omega)
  · simp [h12]

theorem or_low_and_mask {x s : Nat} (hx : x % 4096 = 0) (hx32 : x < 2 ^ 32) (hs : s < 4096) :
    (x ||| s) &&& 0xfffff000 = x := by
  apply Nat.eq_of_testBit_eq
  intro i
  rw [Nat.testBit_and, Nat.testBit_or, mask_pt_testBit]
  by_cases h1 : i < 12
  · simp [aligned_testBit_low hx h1, show ¬(12 ≤ i) by omega]
  · by_cases h2 : i < 32
    · have hsi : s.testBit i = false := by
        apply Nat.testBit_lt_two_pow
        calc s < 4096 := hs
          _ = 2 ^ 12 := rfl
          _ ≤ 2 ^ i := Nat.pow_le_pow_right (by norm_num) (by omega)
      simp [hsi, show 12 ≤ i by omega, h2]
    · have hxi : x.testBit i = false := by
        apply Nat.testBit_lt_two_pow
        calc x < 2 ^ 32 := hx32
          _ ≤ 2 ^ i := Nat.pow_le_pow_right (by norm_num) (by omega)
      have hsi : s.testBit i = false := by
        apply Nat.testBit_lt_two_pow
        calc s < 4096 := hs
          _ = 2 ^ 12 := rfl
          _ ≤ 2 ^ i := Nat.pow_le_pow_right (by norm_num) (by omega)
      simp [hxi, hsi, h2]

theorem or_low_and_pse {x s : Nat} (hx : x % 4096 = 0) (hs : s < 128) :
    (x ||| s) &&& PDE_PSE = 0 := by
  apply Nat.eq_of_testBit_eq
  intro i
  rw [Nat.testBit_and, Nat.testBit_or, show PDE_PSE = 2 ^ 7 from by decide, Nat.testBit_two_pow]
  by_cases h7 : (7 : Nat) = i
  · subst h7
    have hx7 : x.testBit 7 = false := aligned_testBit_low hx (by norm_num)
    have hs7 : s.testBit 7 = false := by
      apply Nat.testBit_lt_two_pow
      calc s < 128 := hs
        _ = 2 ^ 7 := rfl
    simp [hx7, hs7]
  · simp [h7]

theorem and_ne_zero_of_testBit' {x y : Nat} (i : Nat) (hx : x.testBit i = true)
    (hy : y.testBit i = true) : x &&& y ≠ 0 := by
  intro h0
  have h1 := congrArg (fun n => n.testBit i) h0
  simp [Nat.testBit_and, hx, hy] at h1

theorem or_present_ne_zero (y : Nat) : (y ||| PDE_PRESENT) &&& PDE_PRESENT ≠ 0 := by
  apply and_ne_zero_of_testBit' 0
  · rw [Nat.testBit_or]
    simp [show (PDE_PRESENT).testBit 0 = true from by decide]
  · decide

theorem and_low_page {v : Nat} (hv : v % PAGE_SIZE = 0) : v &&& (PAGE_SIZE - 1) = 0 := by
  have h : (PAGE_SIZE : Nat) = 2 ^ 12 := rfl
  rw [h, Nat.and_pow_two_sub_one_eq_mod, ← h]
  exact hv

/-- A successful `allocate_frame` returns a page-aligned address below
`2^32` (the frame index is checked against `TOTAL_FRAMES`). -/
theorem allocateFrame_some_bound {st : FrameState} {a : Nat} {st₁ : FrameState}
    (h : allocateFrame st = (some a, st₁)) : a % 4096 = 0 ∧ a < 2 ^ 32 := by
  unfold allocateFrame at h
  split at h
  · rename_i frameIdx st'' hscan
    injection h with h1 h2
    injection h1 with h1
    obtain ⟨ei, bi, _, _, _, _, _, htot, _⟩ := allocScanWords_eq_some hscan
    have hT : TOTAL_FRAMES = 1048576 := rfl
    have hP : PAGE_SIZE = 4096 := rfl
    rw [hP] at h1
    constructor
    · omega
    · rw [hT] at htot
      have : a = frameIdx * 4096 := by omega
      omega
  · exact absurd h (by simp)

/-- After a successful `unmap_page(v)`, walking `translate(v)` misses:
either the PDE was zeroed (page table freed) or the PTE is now zero. -/
theorem unmapPage_ok_translate_none {st st₂ : PagingState} {v : Nat}
    (h : unmapPage st v = .ok st₂) : translate st₂ v = none := by
  unfold unmapPage at h
  split at h
  · exact absurd h (by simp)
  · dsimp only at h
    split at h
    · exact absurd h (by simp)
    · split at h
      · exact absurd h (by simp)
      · rename_i hpres hpse
        split at h
        · exact absurd h (by simp)
        · rename_i hpte
          split at h
          · rename_i hempty
            injection h with h
            subst h
            unfold translate
            dsimp only
            rw [updFn_self]
            simp [PDE_PRESENT]
          · rename_i hempty
            injection h with h
            subst h
            unfold translate
            dsimp only
            rw [if_neg hpres, if_neg hpse]
            rw [updPt_self, updFn_self]
            simp [PDE_PRESENT]

/-- A 4 KiB walk succeeds when the PDE is present and non-PSE and the
PTE at the walked slot is `p ||| 3` for page-aligned `p < 2^32`. -/
theorem translate_some_of (s : PagingState) (p v : Nat)
    (hp : p % 4096 = 0) (hp32 : p < 2 ^ 32) (hv : v % PAGE_SIZE = 0)
    (hpres : ¬s.pd (v >>> 22) &&& PDE_PRESENT = 0)
    (hpse : ¬s.pd (v >>> 22) &&& PDE_PSE ≠ 0)
    (hpte : s.pts (s.pd (v >>> 22) &&& ADDR_MASK_PDE_TO_PT) ((v >>> 12) &&& 0x3ff) = p ||| 3) :
    translate s v = some p := by
  unfold translate
  dsimp only
  rw [if_neg hpres, if_neg hpse, hpte]
  rw [if_neg (and_ne_zero_of_testBit' 0 (by simp [Nat.testBit_or]) (by decide))]
  rw [show ADDR_MASK_4KIB_PTE = 0xfffff000 from rfl,
    or_low_and_mask hp hp32 (by norm_num), and_low_page hv]
  rw [Nat.add_zero]

/-- **C4**.  For page-aligned `p` and `v`, when
`map_page(p, v, PRESENT|WRITABLE)` completes — in particular `v` is not
covered by a 4 MiB mapping, which would be a fatal conflict — the walk
`translate(v)` returns `Some(p)`; and after a subsequent successful
`unmap_page(v)` the walk returns `None`. -/
theorem map_page_translate_roundtrip (st st₁ : PagingState) (p v : Nat)
    (hp : p % PAGE_SIZE = 0) (hv : v % PAGE_SIZE = 0) (hp32 : p < 2 ^ 32)
    (h : mapPage st p v (PDE_PRESENT ||| PDE_WRITABLE) = .ok st₁) :
    translate st₁ v = some p ∧
    ∀ st₂, unmapPage st₁ v = .ok st₂ → translate st₂ v = none := by
  refine ⟨?_, fun st₂ h₂ => unmapPage_ok_translate_none h₂⟩
  have hp' : p % 4096 = 0 := hp
  simp only [mapPage] at h
  rw [if_neg (not_not_intro hp), if_neg (not_not_intro hv)] at h
  have hpte3 : (p % 2 ^ 32) ||| ((PDE_PRESENT ||| PDE_WRITABLE) &&& 0xfff) ||| PDE_PRESENT
      = p ||| 3 := by
    rw [Nat.mod_eq_of_lt hp32,
      show (PDE_PRESENT ||| PDE_WRITABLE) &&& 0xfff = 3 from by decide,
      Nat.or_assoc, show (3 : Nat) ||| PDE_PRESENT = 3 from by decide]
  by_cases hpde0 : st.pd (v >>> 22) &&& PDE_PRESENT = 0
  · rw [if_pos hpde0] at h
    rcases hA : allocateFrame st.frames with ⟨o, fr'⟩
    rw [hA] at h
    cases o with
    | none => simp [Except.bind] at h
    | some f =>
      simp only [Except.bind] at h
      injection h with h
      subst h
      obtain ⟨hfal, hf32⟩ := allocateFrame_some_bound hA
      have hfm : f % 2 ^ 32 = f := Nat.mod_eq_of_lt hf32
      have hpdval : ∀ g : Nat → Nat,
          updFn g (v >>> 22) ((f % 2 ^ 32) ||| PDE_PRESENT ||| PDE_WRITABLE) (v >>> 22)
          = f ||| 3 := by
        intro g
        rw [updFn_self, hfm, Nat.or_assoc, show PDE_PRESENT ||| PDE_WRITABLE = 3 from by decide]
      apply translate_some_of _ _ _ hp' hp32 hv
      · dsimp only
        rw [hpdval]
        exact and_ne_zero_of_testBit' 0 (by simp [Nat.testBit_or]) (by decide)
      · dsimp only
        rw [hpdval]
        simpa using or_low_and_pse hfal (by norm_num)
      · dsimp only
        rw [hpdval]
        rw [show ADDR_MASK_PDE_TO_PT = 0xfffff000 from rfl,
          or_low_and_mask hfal hf32 (by norm_num)]
        rw [updPt_self, updFn_self]
        exact hpte3
  · rw [if_neg hpde0] at h
    by_cases hpse : st.pd (v >>> 22) &&& PDE_PSE ≠ 0
    · rw [if_pos hpse] at h
      simp [Except.bind] at h
    · rw [if_neg hpse] at h
      simp only [Except.bind] at h
      injection h with h
      subst h
      apply translate_some_of _ _ _ hp' hp32 hv
      · exact hpde0
      · exact hpse
      · dsimp only
        rw [updPt_self, updFn_self]
        exact hpte3
/-- An initial paging state for concrete runs: frame 0 free, empty page
directory, zeroed page-table memory. -/
def pgSt0 : PagingState :=
  { frames := ⟨[U64_MAX - 1], 0⟩,
    cr3 := 0x1000,
    pd := fun _ => 0,
    pts := fun _ _ => 0,
    invalidated := [] }

/-- `pgSt0` after `map_page(0x2000, 0x3000, PRESENT|WRITABLE)`. -/
def pgSt1 : PagingState :=
  match mapPage pgSt0 0x2000 0x3000 (PDE_PRESENT ||| PDE_WRITABLE) with
  | .ok s => s
  | .error _ => pgSt0

/-- `pgSt1` after `unmap_page(0x3000)`. -/
def pgSt2 : PagingState :=
  match unmapPage pgSt1 0x3000 with
  | .ok s => s
  | .error _ => pgSt1

/-- Witness for C4 at a concrete state: map `0x2000 ↦ 0x3000`, translate,
unmap, translate again. -/
theorem map_page_translate_roundtrip_witness :
    translate pgSt1 0x3000 = some 0x2000 ∧ translate pgSt2 0x3000 = none := by
  have h := map_page_translate_roundtrip pgSt0 pgSt1 0x2000 0x3000 (by decide) (by decide)
    (by norm_num) (by rfl)
  exact ⟨h.1, h.2 pgSt2 (by rfl)⟩

/-- **C5**.  For every page-aligned `v`: `unmap_page(v)` is fatal when the
PDE is absent, when the PDE is a 4 MiB (PSE) mapping, or when the PTE is
absent; otherwise it clears the PTE, issues `INVLPG` (logged in
`invalidated`), returns the previously mapped frame to the frame
allocator, and — exactly when the surrounding page table has no present
entry left — also returns the page-table frame and zeroes the PDE. -/
theorem unmap_page_spec (st : PagingState) (v : Nat) (hv : v % PAGE_SIZE = 0) :
    (st.pd (v >>> 22) &&& PDE_PRESENT = 0 →
      unmapPage st v = .error "Attempted to unmap unmapped virtual address (PDE not present)") ∧
    (st.pd (v >>> 22) &&& PDE_PRESENT ≠ 0 → st.pd (v >>> 22) &&& PDE_PSE ≠ 0 →
      unmapPage st v = .error "Attempted to unmap 4MiB page using 4KiB unmap function") ∧
    (st.pd (v >>> 22) &&& PDE_PRESENT ≠ 0 → st.pd (v >>> 22) &&& PDE_PSE = 0 →
      st.pts (st.pd (v >>> 22) &&& ADDR_MASK_PDE_TO_PT) ((v >>> 12) &&& 0x3ff) &&&
        PDE_PRESENT = 0 →
      unmapPage st v = .error "Attempted to unmap unmapped virtual address (PTE not present)") ∧
    (st.pd (v >>> 22) &&& PDE_PRESENT ≠ 0 → st.pd (v >>> 22) &&& PDE_PSE = 0 →
      st.pts (st.pd (v >>> 22) &&& ADDR_MASK_PDE_TO_PT) ((v >>> 12) &&& 0x3ff) &&&
        PDE_PRESENT ≠ 0 →
      ∃ st₂, unmapPage st v = .ok st₂ ∧
        st₂.pts (st.pd (v >>> 22) &&& ADDR_MASK_PDE_TO_PT) ((v >>> 12) &&& 0x3ff) = 0 ∧
        st₂.invalidated = v :: st.invalidated ∧
        (if ptIsEmpty (updFn (st.pts (st.pd (v >>> 22) &&& ADDR_MASK_PDE_TO_PT))
            ((v >>> 12) &&& 0x3ff) 0) then
          st₂.frames = deallocateFrame
              (deallocateFrame st.frames
                (st.pts (st.pd (v >>> 22) &&& ADDR_MASK_PDE_TO_PT) ((v >>> 12) &&& 0x3ff)
                  &&& ADDR_MASK_4KIB_PTE))
              (st.pd (v >>> 22) &&& ADDR_MASK_PDE_TO_PT) ∧
            st₂.pd (v >>> 22) = 0
        else
          st₂.frames = deallocateFrame st.frames
              (st.pts (st.pd (v >>> 22) &&& ADDR_MASK_PDE_TO_PT) ((v >>> 12) &&& 0x3ff)
                &&& ADDR_MASK_4KIB_PTE) ∧
            st₂.pd = st.pd)) := by
  refine ⟨?_, ?_, ?_, ?_⟩
  · intro h1
    simp only [unmapPage]
    rw [if_neg (not_not_intro hv), if_pos h1]
  · intro h1 h2
    simp only [unmapPage]
    rw [if_neg (not_not_intro hv), if_neg h1, if_pos h2]
  · intro h1 h2 h3
    simp only [unmapPage]
    rw [if_neg (not_not_intro hv), if_neg h1, if_neg (not_not_intro h2), if_pos h3]
  · intro h1 h2 h3
    simp only [unmapPage]
    rw [if_neg (not_not_intro hv), if_neg h1, if_neg (not_not_intro h2), if_neg h3]
    by_cases hE : ptIsEmpty (updFn (st.pts (st.pd (v >>> 22) &&& ADDR_MASK_PDE_TO_PT))
        ((v >>> 12) &&& 0x3ff) 0) = true
    · rw [if_pos hE]
      refine ⟨_, rfl, ?_, rfl, ?_⟩
      · dsimp only
        rw [updPt_self, updFn_self]
      · rw [if_pos hE]
        exact ⟨rfl, updFn_self _ _ _⟩
    · rw [if_neg hE]
      refine ⟨_, rfl, ?_, rfl, ?_⟩
      · dsimp only
        rw [updPt_self, updFn_self]
      · rw [if_neg hE]
        exact ⟨rfl, rfl⟩

/-- Witness for C5: a concrete state with one present 4 KiB mapping at
`0x402000`; unmapping it succeeds, clears the PTE, logs the INVLPG, and
(the table becoming empty) frees both the mapped frame and the
page-table frame and zeroes the PDE. -/
theorem unmap_page_spec_witness :
    ∃ st₂, unmapPage
        { frames := ⟨[U64_MAX], 0⟩, cr3 := 0,
          pd := updFn (fun _ => 0) 1 (0x5000 ||| 3),
          pts := updPt (fun _ _ => 0) 0x5000 (updFn (fun _ => 0) 2 (0x7000 ||| 3)),
          invalidated := [] } 0x402000 = .ok st₂ ∧
      st₂.pts 0x5000 2 = 0 ∧
      st₂.invalidated = [0x402000] ∧
      st₂.pd 1 = 0 := by
  have h := (unmap_page_spec
    { frames := ⟨[U64_MAX], 0⟩, cr3 := 0,
      pd := updFn (fun _ => 0) 1 (0x5000 ||| 3),
      pts := updPt (fun _ _ => 0) 0x5000 (updFn (fun _ => 0) 2 (0x7000 ||| 3)),
      invalidated := [] } 0x402000 (by decide)).2.2.2 (by decide) (by decide) (by decide)
  obtain ⟨st₂, hok, hpte, hinv, hrest⟩ := h
  refine ⟨st₂, ?_, ?_, hinv, ?_⟩
  · exact hok
  · have : ((0x402000 : Nat) >>> 12) &&& 0x3ff = 2 := by decide
    have h2 : (updFn (fun _ => 0) 1 (0x5000 ||| 3) ((0x402000 : Nat) >>> 22) &&&
        ADDR_MASK_PDE_TO_PT) = 0x5000 := by decide
    rw [show (0x5000 : Nat) = updFn (fun _ => 0) 1 (0x5000 ||| 3) ((0x402000 : Nat) >>> 22) &&&
        ADDR_MASK_PDE_TO_PT from h2.symm,
      show (2 : Nat) = ((0x402000 : Nat) >>> 12) &&& 0x3ff from this.symm]
    exact hpte
  · rw [if_pos (by decide)] at hrest
    have h1 : ((0x402000 : Nat) >>> 22) = 1 := by decide
    rw [← h1]
    exact hrest.2

/-! ## Memblock (`memory/memblock.rs`)

The early region allocator: two fixed arrays of at most `MAX_REGION = 64`
`MemRegion`s with counts.  Slots beyond the count are `MemRegion::empty()`
(base 0, size 0); we model each array as the list of its first `count`
slots, so `memory_count == 0` becomes `memoryRegion = []`, `add` appends
(silently dropping on overflow, as the code only prints), and `remove i`
is `eraseIdx i`. -/

/-- `MAX_REGION = 64`. -/
def MAX_REGION : Nat := 64

/-- `MemRegion { base, size }` (both fields are machine words). -/
structure MemRegion where
  base : Nat
  size : Nat
  deriving Repr, DecidableEq

/-- `MemRegion::is_empty`: equal to `MemRegion::empty()` (base 0, size 0). -/
def MemRegion.isEmpty (r : MemRegion) : Bool :=
  r.base == 0 && r.size == 0

/-- The `MemBlockAllocator` region arrays (available and reserved). -/
structure MemBlockAllocator where
  memoryRegion : List MemRegion
  reservedRegion : List MemRegion
  deriving Repr, DecidableEq

/-- Rust `usize::next_multiple_of` (for a positive modulus). -/
def nextMultipleOf (n m : Nat) : Nat :=
  ((n + m - 1) / m) * m

/-- The aligned base the code computes: `base` when already aligned, else
`(base + align_mask) & !align_mask` — for the power-of-two alignments a
`Layout` carries this is rounding up to the next multiple, written here
in subtraction form. -/
def alignedAddr (base ra : Nat) : Nat :=
  if base % ra = 0 then base
  else (base + ra - 1) - ((base + ra - 1) % ra)

/-- `MemBlockAllocator::add`: append to the available array unless it is
full (`MAX_REGION`); returns whether the append happened. -/
def MemBlockAllocator.add (m : MemBlockAllocator) (base size : Nat) :
    Bool × MemBlockAllocator :=
  if m.memoryRegion.length ≥ MAX_REGION then (false, m)
  else (true, { m with memoryRegion := m.memoryRegion ++ [⟨base, size⟩] })

/-- `MemBlockAllocator::reserved`: append to the reserved array unless it
is full. -/
def MemBlockAllocator.reserved (m : MemBlockAllocator) (base size : Nat) :
    Bool × MemBlockAllocator :=
  if m.reservedRegion.length ≥ MAX_REGION then (false, m)
  else (true, { m with reservedRegion := m.reservedRegion ++ [⟨base, size⟩] })

/-- The scan loop of `find_free_region`: first index whose region is
non-empty, at least `allocSize` large, and fits `alignment_offset +
allocSize`. -/
def findFitFrom (regions : List MemRegion) (allocSize ra i : Nat) : Option Nat :=
  match regions with
  | [] => none
  | r :: rest =>
    if r.isEmpty ∨ r.size < allocSize then findFitFrom rest allocSize ra (i + 1)
    else if (alignedAddr r.base ra - r.base) + allocSize ≤ r.size then some i
    else findFitFrom rest allocSize ra (i + 1)

/-- `MemBlockAllocator::find_free_region(size, align)`. -/
def findFreeRegion (m : MemBlockAllocator) (size align : Nat) :
    Option Nat × MemBlockAllocator :=
  if m.memoryRegion.length = 0 ∨ size = 0 then (none, m)
  else
    let allocSize := max (nextMultipleOf size PAGE_SIZE) PAGE_SIZE
    let requiredAlign := max align PAGE_SIZE
    match findFitFrom m.memoryRegion allocSize requiredAlign 0 with
    | none => (none, m)
    | some i =>
      let region := m.memoryRegion.getD i ⟨0, 0⟩
      let m₁ := { m with memoryRegion := m.memoryRegion.eraseIdx i }
      let alignedA := alignedAddr region.base requiredAlign
      let m₂ := (m₁.reserved alignedA allocSize).2
      let gap := alignedA - region.base
      let m₃ := if gap > 0 then (m₂.add region.base gap).2 else m₂
      let remaining := region.size - gap - allocSize
      let m₄ := if remaining > 0 then (m₃.add (alignedA + allocSize) remaining).2 else m₃
      (some alignedA, m₄)

/-- `MemBlockAllocator::alloc` returns the found address or null. -/
def memblockAlloc (m : MemBlockAllocator) (size align : Nat) :
    Option Nat × MemBlockAllocator :=
  findFreeRegion m size align

/-- The claim's reading of the scan: the first region in which the
aligned base plus the padded size fits. -/
def claimFitFrom (regions : List MemRegion) (paddedSize ra i : Nat) : Option Nat :=
  match regions with
  | [] => none
  | r :: rest =>
    if alignedAddr r.base ra + paddedSize ≤ r.base + r.size then some i
    else claimFitFrom rest paddedSize ra (i + 1)

/-- C7's description of `alloc`, taken from the claim's words: size
rounded up to whole pages, alignment at least `PAGE_SIZE`, first-fit by
aligned base + padded size, remove the region, re-insert the leading
gap, append `[aligned_base, padded_size]` to reserved, re-insert the
trailing remainder, return the aligned base; null when nothing fits. -/
def findFreeRegionClaim (m : MemBlockAllocator) (size align : Nat) :
    Option Nat × MemBlockAllocator :=
  let paddedSize := nextMultipleOf size PAGE_SIZE
  let ra := max align PAGE_SIZE
  match claimFitFrom m.memoryRegion paddedSize ra 0 with
  | none => (none, m)
  | some i =>
    let region := m.memoryRegion.getD i ⟨0, 0⟩
    let alignedA := alignedAddr region.base ra
    let gap := alignedA - region.base
    let remaining := region.size - gap - paddedSize
    (some alignedA,
      { memoryRegion := (m.memoryRegion.eraseIdx i)
          ++ (if gap > 0 then [⟨region.base, gap⟩] else [])
          ++ (if remaining > 0 then [⟨alignedA + paddedSize, remaining⟩] else []),
        reservedRegion := m.reservedRegion ++ [⟨alignedA, paddedSize⟩] })

/-! ### Memblock lemmas -/

theorem alignedAddr_ge {base ra : Nat} (hra : 0 < ra) : base ≤ alignedAddr base ra := by
  unfold alignedAddr
  split
  · exact le_refl base
  · have h := Nat.mod_lt (base + ra - 1) hra
    omega

/-- For positive request sizes the code's scan (skip empty/small regions,
then check `alignment_offset + alloc_size ≤ size`) finds exactly the
claim's first fit (`aligned base + padded size ≤ region end`). -/
theorem findFitFrom_eq_claimFitFrom (allocSize ra : Nat) (hA : 0 < allocSize)
    (hra : 0 < ra) :
    ∀ (regions : List MemRegion) (i : Nat),
    findFitFrom regions allocSize ra i = claimFitFrom regions allocSize ra i := by
  intro regions
  induction regions with
  | nil => intro i; rfl
  | cons r rest ih =>
    intro i
    rw [findFitFrom, claimFitFrom]
    have hge : r.base ≤ alignedAddr r.base ra := alignedAddr_ge hra
    by_cases hfit : alignedAddr r.base ra + allocSize ≤ r.base + r.size
    · have hskip : ¬(r.isEmpty = true ∨ r.size < allocSize) := by
        intro hsk
        rcases hsk with he | hs
        · simp [MemRegion.isEmpty] at he
          obtain ⟨hb, hsz⟩ := he
          rw [hb] at hfit
          have h0 : alignedAddr 0 ra = 0 := by simp [alignedAddr]
          rw [h0] at hfit
          omega
        · omega
      rw [if_neg hskip, if_pos (by omega), if_pos hfit]
    · by_cases hskip : r.isEmpty = true ∨ r.size < allocSize
      · rw [if_pos hskip, if_neg hfit, ih]
      · rw [if_neg hskip, if_neg (by omega), if_neg hfit, ih]

theorem claimFitFrom_lt {l : List MemRegion} {a ra : Nat} :
    ∀ {i j : Nat}, claimFitFrom l a ra i = some j → i ≤ j ∧ j < i + l.length := by
  induction l with
  | nil => intro i j h; simp [claimFitFrom] at h
  | cons r rest ih =>
    intro i j h
    rw [claimFitFrom] at h
    split at h
    · injection h with h
      simp
      omega
    · obtain ⟨h1, h2⟩ := ih h
      simp
      omega

/-- **C7** (amended).  For layouts of positive size, and when the fixed
region arrays have room for the split pieces (`reserved_count <
MAX_REGION` and `memory_count < MAX_REGION`), `find_free_region` behaves
exactly as the claim describes (first-fit on the aligned base plus the
page-padded size; remove the region, re-insert the leading gap, append
to reserved, re-insert the trailing remainder, return the aligned base;
null when nothing fits).  A size-0 layout returns null immediately, even
when a region fits the claim's padded size of 0. -/
theorem memblock_alloc_first_fit (m : MemBlockAllocator) (size align : Nat)
    (hres : m.reservedRegion.length < MAX_REGION)
    (hmem : m.memoryRegion.length < MAX_REGION) :
    (0 < size → memblockAlloc m size align = findFreeRegionClaim m size align) ∧
    (size = 0 → memblockAlloc m size align = (none, m)) := by
  constructor
  · intro hsize
    unfold memblockAlloc findFreeRegion findFreeRegionClaim
    have hP : PAGE_SIZE = 4096 := rfl
    have hA : 0 < nextMultipleOf size PAGE_SIZE := by
      unfold nextMultipleOf
      rw [hP]
      omega
    have hra : 0 < max align PAGE_SIZE := by
      rw [hP]
      omega
    have hmax : max (nextMultipleOf size PAGE_SIZE) PAGE_SIZE
        = nextMultipleOf size PAGE_SIZE := by
      apply max_eq_left
      unfold nextMultipleOf
      rw [hP]
      omega
    by_cases hlen : m.memoryRegion.length = 0
    · rw [if_pos (Or.inl hlen)]
      rw [List.length_eq_zero.mp hlen]
      rfl
    · rw [if_neg (by push_neg; exact ⟨hlen, by omega⟩)]
      dsimp only
      rw [hmax, findFitFrom_eq_claimFitFrom _ _ hA hra]
      cases hscan : claimFitFrom m.memoryRegion (nextMultipleOf size PAGE_SIZE)
          (max align PAGE_SIZE) 0 with
      | none => rfl
      | some i =>
        obtain ⟨_, hilt⟩ := claimFitFrom_lt hscan
        have hierr : i < m.memoryRegion.length := by omega
        have hel : (m.memoryRegion.eraseIdx i).length + 1 = m.memoryRegion.length :=
          List.length_eraseIdx_add_one hierr
        dsimp only
        simp only [MemBlockAllocator.reserved, MemBlockAllocator.add]
        rw [if_neg (by omega : ¬m.reservedRegion.length ≥ MAX_REGION)]
        dsimp only
        have hg1 : ¬((m.memoryRegion.eraseIdx i).length ≥ MAX_REGION) := by omega
        by_cases hgap : alignedAddr (m.memoryRegion.getD i ⟨0, 0⟩).base
            (max align PAGE_SIZE) - (m.memoryRegion.getD i ⟨0, 0⟩).base > 0
        · simp only [if_pos hgap]
          rw [if_neg hg1]
          dsimp only
          have hg2 : ¬((m.memoryRegion.eraseIdx i).length + 1 ≥ MAX_REGION) := by omega
          by_cases hrem : (m.memoryRegion.getD i ⟨0, 0⟩).size -
              (alignedAddr (m.memoryRegion.getD i ⟨0, 0⟩).base (max align PAGE_SIZE) -
                (m.memoryRegion.getD i ⟨0, 0⟩).base) -
              nextMultipleOf size PAGE_SIZE > 0
          · simp only [if_pos hrem]
            rw [if_neg (by simpa using hg2)]
          · simp only [if_neg hrem]
            simp
        · simp only [if_neg hgap]
          by_cases hrem : (m.memoryRegion.getD i ⟨0, 0⟩).size -
              (alignedAddr (m.memoryRegion.getD i ⟨0, 0⟩).base (max align PAGE_SIZE) -
                (m.memoryRegion.getD i ⟨0, 0⟩).base) -
              nextMultipleOf size PAGE_SIZE > 0
          · simp only [if_pos hrem]
            rw [if_neg hg1]
            simp
          · simp only [if_neg hrem]
            simp
  · intro hsize
    unfold memblockAlloc findFreeRegion
    rw [if_pos (Or.inr hsize)]

/-- **C7** counterexample.  With one available region `[0x1000, +0x100000]`
and the zero-size layout `{size=0, align=1}`, a region fits under the
claim's arithmetic (padded size 0, aligned base `0x1000`) and the claim
predicts the aligned base is returned, but `find_free_region` returns
null: the code bails out on `size == 0` before scanning. -/
theorem memblock_zero_size_counterexample :
    (findFreeRegion ⟨[⟨4096, 0x100000⟩], []⟩ 0 1).1 = none ∧
    (findFreeRegionClaim ⟨[⟨4096, 0x100000⟩], []⟩ 0 1).1 = some 4096 := by
  constructor
  · decide
  · decide

/-- Witness for C7: a 42-byte, align-8 allocation out of one region
follows the claim's first-fit description, and a size-0 allocation
returns null. -/
theorem memblock_alloc_first_fit_witness :
    memblockAlloc ⟨[⟨0x100000, 0x400000⟩], []⟩ 42 8
      = findFreeRegionClaim ⟨[⟨0x100000, 0x400000⟩], []⟩ 42 8 ∧
    memblockAlloc ⟨[⟨0x100000, 0x400000⟩], []⟩ 0 8 = (none, ⟨[⟨0x100000, 0x400000⟩], []⟩) :=
  ⟨(memblock_alloc_first_fit ⟨[⟨0x100000, 0x400000⟩], []⟩ 42 8 (by decide) (by decide)).1
      (by decide),
   (memblock_alloc_first_fit ⟨[⟨0x100000, 0x400000⟩], []⟩ 0 8 (by decide) (by decide)).2 rfl⟩

/-! ## Buddy allocator (`memory/buddy.rs`)

Power-of-two block allocator: `free_lists` is an array of `MAX_ORDERS`
linked lists of block base addresses (modelled front-to-back as `List
Nat`), and `map` is the bitmap over minimum-size blocks (one bit per
`min_block_size` block, `usize` words — 32 bits on i386).  `while` loops
carry explicit fuel; every call site passes fuel at least as large as
the loop's bound, and the loop guard is kept verbatim so exhaustion is
unreachable at those call sites. -/

/-- `MAX_ORDERS = 32`. -/
def MAX_ORDERS : Nat := 32

/-- `usize::BITS` on the i386 target. -/
def USIZE_BITS : Nat := 32

/-- `usize::MAX` on the i386 target (for `!mask`). -/
def USIZE_MAX : Nat := 2 ^ 32 - 1

/-- `BuddyAllocator` state. -/
structure BuddyAllocator where
  base : Nat
  size : Nat
  minBlockSize : Nat
  maxOrder : Nat
  freeLists : List (List Nat)
  map : List Nat
  deriving Repr, DecidableEq

/-- The `mark_allocated` loop: set the bits of `count` consecutive
minimum blocks starting at index `current`; panic when a word index
falls outside the map. -/
def markBitsAlloc (map : List Nat) (current : Nat) : Nat → Except String (List Nat)
  | 0 => .ok map
  | count + 1 =>
    let word := current / USIZE_BITS
    let bitPos := current % USIZE_BITS
    let mask := 1 <<< bitPos
    if word ≥ map.length then .error "Allocation address out of map bounds"
    else markBitsAlloc (map.set word ((map.getD word 0) ||| mask)) (current + 1) count

/-- The `mark_free` loop: clear the bits of `count` consecutive minimum
blocks starting at index `current` (`&= !mask` on 32-bit words). -/
def markBitsFree (map : List Nat) (current : Nat) : Nat → Except String (List Nat)
  | 0 => .ok map
  | count + 1 =>
    let word := current / USIZE_BITS
    let bitPos := current % USIZE_BITS
    let mask := 1 <<< bitPos
    if word ≥ map.length then .error "Allocation address out of map bounds"
    else markBitsFree (map.set word ((map.getD word 0) &&& (USIZE_MAX ^^^ mask))) (current + 1) count

/-- The `is_free` loop: `true` iff the bits of `count` consecutive
minimum blocks from index `current` are all clear and in bounds. -/
def isFreeLoop (map : List Nat) (current : Nat) : Nat → Bool
  | 0 => true
  | count + 1 =>
    let word := current / USIZE_BITS
    let bitPos := current % USIZE_BITS
    let mask := 1 <<< bitPos
    if word ≥ map.length ∨ (map.getD word 0) &&& mask ≠ 0 then false
    else isFreeLoop map (current + 1) count

/-- `BuddyAllocator::get_block_index`. -/
def BuddyAllocator.getBlockIndex (b : BuddyAllocator) (addr : Nat) : Nat :=
  (addr - b.base) / b.minBlockSize

/-- `BuddyAllocator::find_buddy_addr`: `base + ((addr − base) XOR block_size)`. -/
def BuddyAllocator.findBuddyAddr (b : BuddyAllocator) (addr order : Nat) : Nat :=
  b.base + ((addr - b.base) ^^^ (b.minBlockSize * (1 <<< order)))

/-- `BuddyAllocator::is_free(i, order)`. -/
def BuddyAllocator.isFree (b : BuddyAllocator) (i order : Nat) : Bool :=
  isFreeLoop b.map i (1 <<< order)

/-- `BuddyAllocator::mark_allocated(addr, order)` (returns the new map). -/
def BuddyAllocator.markAllocated (b : BuddyAllocator) (addr order : Nat) :
    Except String (List Nat) :=
  markBitsAlloc b.map ((addr - b.base) / b.minBlockSize) (1 <<< order)

/-- The cursor walk of `remove_from_free_list`: drop the first element
equal to `a`, front to back; `none` when absent. -/
def removeFirst : List Nat → Nat → Option (List Nat)
  | [], _ => none
  | x :: xs, a => if x = a then some xs else (removeFirst xs a).map (x :: ·)

/-- `BuddyAllocator::remove_from_free_list`: panics on a bad order and
when the address is not on the list. -/
def BuddyAllocator.removeFromFreeList (b : BuddyAllocator) (addr order : Nat) :
    Except String BuddyAllocator :=
  if order ≥ MAX_ORDERS then .error "Invalid order provided to remove_from_free_list"
  else
    match removeFirst (b.freeLists.getD order []) addr with
    | some l => .ok { b with freeLists := b.freeLists.set order l }
    | none => .error "Failed to remove address from free_list: address not found in list!"

/-- The order-computation loop of `find_free_block`:
`while min_block_size * (1 << k) < required { k += 1 }`. -/
def orderLoop (m required : Nat) : Nat → Nat → Nat
  | 0, k => k
  | fuel + 1, k => if m * (1 <<< k) < required then orderLoop m required fuel (k + 1) else k

/-- The order-reconstruction loop of `dealloc`: as `orderLoop`, but the
increment panics past `MAX_ORDERS`. -/
def deallocOrderLoop (m required : Nat) : Nat → Nat → Except String Nat
  | 0, k => .ok k
  | fuel + 1, k =>
    if m * (1 <<< k) < required then
      if k + 1 ≥ MAX_ORDERS then .error "Layout implies an order larger than MAX_ORDERS during dealloc"
      else deallocOrderLoop m required fuel (k + 1)
    else .ok k

/-- The free-list search of `find_free_block`:
`while k < MAX_ORDERS && free_lists[k].is_empty() { k += 1 }`. -/
def searchLoop (fl : List (List Nat)) : Nat → Nat → Nat
  | 0, k => k
  | fuel + 1, k =>
    if k < MAX_ORDERS ∧ (fl.getD k []).isEmpty then searchLoop fl fuel (k + 1)
    else k

/-- `LinkedList::pop_back`: the tail element and the remaining list. -/
def popBack (l : List Nat) : Option (Nat × List Nat) :=
  match l.getLast? with
  | none => none
  | some x => some (x, l.dropLast)

/-- The split loop of `find_free_block`: `while k > required_order`,
push the upper half `block_addr + min_block_size * (1 << (k-1))` on
`free_lists[k-1]` and decrement `k`. -/
def splitLoop (blockAddr m : Nat) : Nat → Nat → Nat → List (List Nat) → List (List Nat)
  | 0, _, _, fl => fl
  | fuel + 1, k, target, fl =>
    if k > target then
      let buddyOffset := m * (1 <<< (k - 1))
      let buddyAddr := blockAddr + buddyOffset
      splitLoop blockAddr m fuel (k - 1) target
        (fl.set (k - 1) ((fl.getD (k - 1) []) ++ [buddyAddr]))
    else fl

/-- `BuddyAllocator::find_free_block(layout)`. -/
def findFreeBlock (b : BuddyAllocator) (size align : Nat) :
    Except String (Option Nat × BuddyAllocator) :=
  let required := max size align
  let k := orderLoop b.minBlockSize required (required + 1) 0
  if k ≥ MAX_ORDERS then .ok (none, b)
  else
    let requiredOrder := k
    let j := searchLoop b.freeLists MAX_ORDERS k
    if j = MAX_ORDERS then .ok (none, b)
    else
      match popBack (b.freeLists.getD j []) with
      | none => .ok (none, b)
      | some (blockAddr, rest) =>
        let fl₁ := b.freeLists.set j rest
        let fl₂ := splitLoop blockAddr b.minBlockSize MAX_ORDERS j requiredOrder fl₁
        (markBitsAlloc b.map ((blockAddr - b.base) / b.minBlockSize)
            (1 <<< requiredOrder)).bind fun map' =>
          .ok (some blockAddr, { b with freeLists := fl₂, map := map' })

/-- `BuddyAllocator::alloc` returns the found base or null. -/
def buddyAlloc (b : BuddyAllocator) (size align : Nat) :
    Except String (Option Nat × BuddyAllocator) :=
  findFreeBlock b size align

/-- The merge loop of `dealloc`: `while current_order < MAX_ORDERS - 1`,
compute the buddy; stop when the bitmap shows it not (entirely) free;
otherwise remove it from `free_lists[current_order]` (panicking when it
is not there), take the lower address, and go one order up. -/
def mergeLoop : BuddyAllocator → Nat → Nat → Nat → Except String (Nat × Nat × BuddyAllocator)
  | b, currentAddr, currentOrder, 0 => .ok (currentAddr, currentOrder, b)
  | b, currentAddr, currentOrder, fuel + 1 =>
    if currentOrder < MAX_ORDERS - 1 then
      let buddyAddr := b.findBuddyAddr currentAddr currentOrder
      let buddyIndex := b.getBlockIndex buddyAddr
      if ¬b.isFree buddyIndex currentOrder then .ok (currentAddr, currentOrder, b)
      else
        (b.removeFromFreeList buddyAddr currentOrder).bind fun b' =>
          mergeLoop b' (min currentAddr buddyAddr) (currentOrder + 1) fuel
    else .ok (currentAddr, currentOrder, b)

/-- `BuddyAllocator::dealloc(ptr, layout)`. -/
def buddyDealloc (b : BuddyAllocator) (ptr size align : Nat) : Except String BuddyAllocator :=
  let addr := ptr
  let i := b.getBlockIndex addr
  let required := max size align
  (deallocOrderLoop b.minBlockSize required (required + 1) 0).bind fun order =>
  (markBitsFree b.map i (1 <<< order)).bind fun map' =>
  let b₁ := { b with map := map' }
  (mergeLoop b₁ addr order MAX_ORDERS).bind fun r =>
  .ok { r.2.2 with
        freeLists := r.2.2.freeLists.set r.2.1
          ((r.2.2.freeLists.getD r.2.1 []) ++ [r.1]) }

/-! ### Claim-side buddy definitions -/

/-- The smallest order `k` with `PAGE_SIZE << k ≥ required` (the claim's
wording for both `alloc` and `dealloc`). -/
def leastOrder (required : Nat) : Nat :=
  Nat.find (p := fun k => required ≤ PAGE_SIZE <<< k)
    ⟨required, by
      have h1 : required < 2 ^ required := Nat.lt_two_pow required
      have h2 : 2 ^ required ≤ PAGE_SIZE * 2 ^ required :=
        Nat.le_mul_of_pos_left _ (by norm_num [PAGE_SIZE])
      show required ≤ PAGE_SIZE <<< required
      rw [Nat.shiftLeft_eq]
      omega⟩

/-- The claim's split result: for each order `o` in `[k, j)` the upper
half `blockAddr + PAGE_SIZE * 2^o` is pushed on `free_lists[o]` (the
code performs these pushes downward from `j-1` to `k`). -/
def claimSplit (blockAddr k j : Nat) (fl : List (List Nat)) : List (List Nat) :=
  ((List.range' k (j - k)).reverse).foldl
    (fun acc o => acc.set o ((acc.getD o []) ++ [blockAddr + PAGE_SIZE * (1 <<< o)])) fl

/-- The merge loop exactly as the claim states it: merge while
`k < MAX_ORDERS - 1` and the buddy at `(addr − base) XOR (PAGE_SIZE << k)`
is free — all its bitmap bits clear AND the buddy present in
`free_lists[k]` — removing the buddy (first match, linear scan), taking
the lower address, incrementing `k`.  Total: when the bitmap predicts
freedom but the buddy is absent from the list, this description stops,
where the code panics. -/
def mergeLoopClaim : BuddyAllocator → Nat → Nat → Nat → Nat × Nat × BuddyAllocator
  | b, currentAddr, currentOrder, 0 => (currentAddr, currentOrder, b)
  | b, currentAddr, currentOrder, fuel + 1 =>
    if currentOrder < MAX_ORDERS - 1 then
      let buddyAddr := b.findBuddyAddr currentAddr currentOrder
      let buddyIndex := b.getBlockIndex buddyAddr
      if b.isFree buddyIndex currentOrder ∧ buddyAddr ∈ b.freeLists.getD currentOrder [] then
        let newList := (b.freeLists.getD currentOrder []).erase buddyAddr
        let b' := { b with freeLists := b.freeLists.set currentOrder newList }
        mergeLoopClaim b' (min currentAddr buddyAddr) (currentOrder + 1) fuel
      else (currentAddr, currentOrder, b)
    else (currentAddr, currentOrder, b)

/-- C1's description of `dealloc`, from the claim's words: reconstruct
`k` from `max(size, align)`, mark the spanned minimum-block range free,
run the merge loop with the conjunctive buddy-free test, and push the
resulting block on `free_lists[k]`. -/
def buddyDeallocClaim (b : BuddyAllocator) (ptr size align : Nat) :
    Except String BuddyAllocator :=
  let i := b.getBlockIndex ptr
  let k := leastOrder (max size align)
  (markBitsFree b.map i (1 <<< k)).bind fun map' =>
  let b₁ := { b with map := map' }
  let r := mergeLoopClaim b₁ ptr k MAX_ORDERS
  .ok { r.2.2 with
        freeLists := r.2.2.freeLists.set r.2.1
          ((r.2.2.freeLists.getD r.2.1 []) ++ [r.1]) }

/-! ### Buddy lemmas -/

theorem removeFirst_some : ∀ {l : List Nat} {a : Nat} {l' : List Nat},
    removeFirst l a = some l' → a ∈ l ∧ l.erase a = l' := by
  intro l
  induction l with
  | nil => intro a l' h; simp [removeFirst] at h
  | cons x xs ih =>
    intro a l' h
    rw [removeFirst] at h
    split at h
    · rename_i hx
      injection h with h
      subst hx
      exact ⟨List.mem_cons_self x xs, by rw [List.erase_cons_head, h]⟩
    · rename_i hx
      cases hm : removeFirst xs a with
      | none => rw [hm] at h; simp at h
      | some l'' =>
        rw [hm] at h
        simp only [Option.map_some'] at h
        injection h with h
        obtain ⟨hmem, herase⟩ := ih hm
        refine ⟨List.mem_cons_of_mem x hmem, ?_⟩
        rw [List.erase_cons_tail (by simpa using hx), herase, h]

/-- Every successful run of the `dealloc` merge loop is exactly the run
the claim describes: the loop merged at an order precisely when the
buddy's bitmap bits were all clear and the buddy was on that order's
free list (the removal succeeding is the list membership). -/
theorem mergeLoop_ok_claim : ∀ (fuel : Nat) (b : BuddyAllocator) (addr order : Nat)
    (r : Nat × Nat × BuddyAllocator),
    mergeLoop b addr order fuel = .ok r → mergeLoopClaim b addr order fuel = r := by
  intro fuel
  induction fuel with
  | zero =>
    intro b addr order r h
    rw [mergeLoop] at h
    rw [show mergeLoopClaim b addr order 0 = (addr, order, b) from rfl]
    injection h
  | succ n ih =>
    intro b addr order r h
    rw [mergeLoop] at h
    rw [mergeLoopClaim]
    split at h
    · rename_i hord
      rw [if_pos hord]
      dsimp only at h
      split at h
      · rename_i hfree
        dsimp only
        rw [if_neg (fun hc => hfree hc.1)]
        injection h
      · rename_i hfree
        have hfree' : b.isFree (b.getBlockIndex (b.findBuddyAddr addr order)) order = true :=
          not_not.mp (by simpa using hfree)
        unfold BuddyAllocator.removeFromFreeList at h
        split at h
        · simp [Except.bind] at h
        · split at h
          · rename_i l' hrem
            simp only [Except.bind] at h
            obtain ⟨hmem, herase⟩ := removeFirst_some hrem
            dsimp only
            rw [if_pos ⟨hfree', hmem⟩]
            rw [herase]
            exact ih _ _ _ _ h
          · simp [Except.bind] at h
    · rename_i hord
      rw [if_neg hord]
      injection h

theorem deallocOrderLoop_correct (m r : Nat) : ∀ (fuel k₀ : Nat),
    r ≤ m * 2 ^ (k₀ + fuel) → (∀ j, j < k₀ → m * 2 ^ j < r) →
    ∀ k, deallocOrderLoop m r fuel k₀ = .ok k →
      ((∀ j, j < k → m * 2 ^ j < r) ∧ r ≤ m * 2 ^ k) := by
  intro fuel
  induction fuel with
  | zero =>
    intro k₀ hfuel hmin k h
    rw [deallocOrderLoop] at h
    injection h with h
    subst h
    exact ⟨hmin, by simpa using hfuel⟩
  | succ n ih =>
    intro k₀ hfuel hmin k h
    rw [deallocOrderLoop] at h
    split at h
    · rename_i hlt
      rw [Nat.shiftLeft_eq, one_mul] at hlt
      split at h
      · exact absurd h (by simp)
      · refine ih (k₀ + 1) ?_ ?_ k h
        · have he : k₀ + 1 + n = k₀ + (n + 1) := by omega
          rw [he]
          exact hfuel
        · intro j hj
          rcases Nat.lt_or_ge j k₀ with hc | hc
          · exact hmin j hc
          · have : j = k₀ := by omega
            rw [this]
            exact hlt
    · rename_i hge
      rw [Nat.shiftLeft_eq, one_mul] at hge
      injection h with h
      subst h
      exact ⟨hmin, by omega⟩

theorem leastOrder_eq {r k : Nat} (h1 : r ≤ PAGE_SIZE * 2 ^ k)
    (h2 : ∀ j, j < k → PAGE_SIZE * 2 ^ j < r) : leastOrder r = k := by
  unfold leastOrder
  rw [Nat.find_eq_iff]
  constructor
  · rw [Nat.shiftLeft_eq]
    exact h1
  · intro j hj
    rw [Nat.shiftLeft_eq]
    have := h2 j hj
    omega

/-- **C1**.  Whenever `dealloc(ptr, layout)` completes (as it does for a
block previously handed out by `alloc` with the same layout, the claim's
precondition), its behaviour is exactly the claim's: the order `k` is
the smallest with `PAGE_SIZE << k ≥ max(size, align)`, the spanned
minimum-block range is marked free, the merge loop coalesces at each
order precisely when the buddy at `(addr − base) XOR (PAGE_SIZE << k)`
has all bitmap bits clear AND is present in `free_lists[k]` (removing
it, keeping the lower address, incrementing `k`), and the final block is
pushed on `free_lists[k]`. -/
theorem buddy_dealloc_matches_claim (b b' : BuddyAllocator) (ptr size align : Nat)
    (hmin : b.minBlockSize = PAGE_SIZE)
    (h : buddyDealloc b ptr size align = .ok b') :
    buddyDeallocClaim b ptr size align = .ok b' := by
  unfold buddyDealloc at h
  unfold buddyDeallocClaim
  dsimp only at h ⊢
  cases hord : deallocOrderLoop b.minBlockSize (max size align) (max size align + 1) 0 with
  | error e => rw [hord] at h; simp [Except.bind] at h
  | ok k =>
    rw [hord] at h
    simp only [Except.bind] at h
    rw [hmin] at hord
    have hP : (0 : Nat) < PAGE_SIZE := by norm_num [PAGE_SIZE]
    have hfuel : max size align ≤ PAGE_SIZE * 2 ^ (0 + (max size align + 1)) := by
      have hlt : max size align < 2 ^ (max size align) := Nat.lt_two_pow _
      have hm : 2 ^ (max size align) ≤ 2 ^ (0 + (max size align + 1)) :=
        Nat.pow_le_pow_right (by norm_num) (by omega)
      have := Nat.le_mul_of_pos_left (2 ^ (0 + (max size align + 1))) hP
      omega
    obtain ⟨hbelow, hat⟩ := deallocOrderLoop_correct PAGE_SIZE (max size align)
      (max size align + 1) 0 hfuel (by omega) k hord
    rw [leastOrder_eq hat hbelow]
    cases hmark : markBitsFree b.map (b.getBlockIndex ptr) (1 <<< k) with
    | error e => rw [hmark] at h; simp [Except.bind] at h
    | ok map' =>
      rw [hmark] at h
      dsimp only at h
      simp only [Except.bind]
      cases hmrg : mergeLoop { b with map := map' } ptr k MAX_ORDERS with
      | error e => rw [hmrg] at h; simp [Except.bind] at h
      | ok r =>
        rw [hmrg] at h
        dsimp only at h
        rw [mergeLoop_ok_claim _ _ _ _ _ hmrg]
        exact h

/-- A buddy state for concrete runs: base `0x100000`, pages 0–3, page 1
allocated, page 0 on `free_lists[0]`, pages 2–3 as one block on
`free_lists[1]`, pages 4–7 marked allocated so coalescing stops at
order 2. -/
def buddyW : BuddyAllocator :=
  { base := 0x100000, size := 0x4000, minBlockSize := PAGE_SIZE, maxOrder := 2,
    freeLists := ((List.replicate MAX_ORDERS ([] : List Nat)).set 0 [0x100000]).set 1 [0x102000],
    map := [242] }

/-- `buddyW` after `dealloc(0x101000, {size=4096, align=4096})`. -/
def buddyW' : BuddyAllocator :=
  match buddyDealloc buddyW 0x101000 4096 4096 with
  | .ok b => b
  | .error _ => buddyW

/-- Witness for C1: the concrete dealloc run (two merges, then blocked by
an allocated buddy) matches the claim's description. -/
theorem buddy_dealloc_matches_claim_witness :
    buddyDeallocClaim buddyW 0x101000 4096 4096 = .ok buddyW' :=
  buddy_dealloc_matches_claim buddyW buddyW' 0x101000 4096 4096 (by rfl) (by rfl)

theorem orderLoop_correct (m r : Nat) : ∀ (fuel k₀ : Nat),
    r ≤ m * 2 ^ (k₀ + fuel) → (∀ j, j < k₀ → m * 2 ^ j < r) →
    ((∀ j, j < orderLoop m r fuel k₀ → m * 2 ^ j < r) ∧
      r ≤ m * 2 ^ (orderLoop m r fuel k₀)) := by
  intro fuel
  induction fuel with
  | zero =>
    intro k₀ hfuel hmin
    rw [orderLoop]
    exact ⟨hmin, by simpa using hfuel⟩
  | succ n ih =>
    intro k₀ hfuel hmin
    rw [orderLoop]
    split
    · rename_i hlt
      rw [Nat.shiftLeft_eq, one_mul] at hlt
      refine ih (k₀ + 1) ?_ ?_
      · have he : k₀ + 1 + n = k₀ + (n + 1) := by omega
        rw [he]
        exact hfuel
      · intro j hj
        rcases Nat.lt_or_ge j k₀ with hc | hc
        · exact hmin j hc
        · have he : j = k₀ := by omega
          rw [he]
          exact hlt
    · rename_i hge
      rw [Nat.shiftLeft_eq, one_mul] at hge
      exact ⟨hmin, by omega⟩

/-- The fuel the code passes suffices: `required ≤ PAGE_SIZE * 2^(required + 1)`. -/
theorem orderLoop_fuel (r : Nat) : r ≤ PAGE_SIZE * 2 ^ (0 + (r + 1)) := by
  have hlt : r < 2 ^ r := Nat.lt_two_pow r
  have hm : 2 ^ r ≤ 2 ^ (0 + (r + 1)) := Nat.pow_le_pow_right (by norm_num) (by omega)
  have := Nat.le_mul_of_pos_left (2 ^ (0 + (r + 1))) (show 0 < PAGE_SIZE by norm_num [PAGE_SIZE])
  omega

/-- The code's order loop computes the claim's smallest order. -/
theorem orderLoop_eq_leastOrder (r : Nat) :
    orderLoop PAGE_SIZE r (r + 1) 0 = leastOrder r := by
  obtain ⟨hbelow, hat⟩ := orderLoop_correct PAGE_SIZE r (r + 1) 0 (orderLoop_fuel r) (by omega)
  exact (leastOrder_eq hat hbelow).symm

theorem searchLoop_all_empty (fl : List (List Nat)) : ∀ (fuel k : Nat),
    MAX_ORDERS ≤ k + fuel → k ≤ MAX_ORDERS →
    (∀ j', k ≤ j' → j' < MAX_ORDERS → (fl.getD j' []).isEmpty = true) →
    searchLoop fl fuel k = MAX_ORDERS := by
  intro fuel
  induction fuel with
  | zero =>
    intro k h1 h2 _
    rw [searchLoop]
    omega
  | succ n ih =>
    intro k h1 h2 hemp
    rw [searchLoop]
    rcases Nat.lt_or_ge k MAX_ORDERS with hk | hk
    · rw [if_pos ⟨hk, hemp k (le_refl k) hk⟩]
      exact ih (k + 1) (by omega) (by omega) (fun j' hj1 hj2 => hemp j' (by omega) hj2)
    · rw [if_neg (by omega)]
      omega

theorem searchLoop_finds (fl : List (List Nat)) (j : Nat)
    (hj : j < MAX_ORDERS) (hne : (fl.getD j []).isEmpty = false) : ∀ (fuel k : Nat),
    j + 1 ≤ k + fuel → k ≤ j →
    (∀ j', k ≤ j' → j' < j → (fl.getD j' []).isEmpty = true) →
    searchLoop fl fuel k = j := by
  intro fuel
  induction fuel with
  | zero =>
    intro k h1 h2 _
    omega
  | succ n ih =>
    intro k h1 h2 hemp
    rw [searchLoop]
    rcases Nat.eq_or_lt_of_le h2 with hk | hk
    · rw [if_neg (by
        rw [hk]
        intro hc
        rw [hc.2] at hne
        cases hne)]
      exact hk
    · rw [if_pos ⟨by omega, hemp k (le_refl k) hk⟩]
      exact ih (k + 1) (by omega) (by omega) (fun j' hj1 hj2 => hemp j' (by omega) hj2)

theorem popBack_isSome {l : List Nat} (h : l.isEmpty = false) :
    ∃ x rest, popBack l = some (x, rest) := by
  unfold popBack
  cases hl : l.getLast? with
  | none =>
    rw [List.getLast?_eq_none_iff] at hl
    rw [hl] at h
    simp at h
  | some x => exact ⟨x, l.dropLast, rfl⟩

theorem splitLoop_eq_claimSplit (blockAddr : Nat) : ∀ (fuel j target : Nat)
    (fl : List (List Nat)), target ≤ j → j - target ≤ fuel →
    splitLoop blockAddr PAGE_SIZE fuel j target fl = claimSplit blockAddr target j fl := by
  intro fuel
  induction fuel with
  | zero =>
    intro j target fl h1 h2
    have he : j = target := by omega
    subst he
    rw [splitLoop, show claimSplit blockAddr j j fl = fl from by
      simp [claimSplit, Nat.sub_self]]
  | succ n ih =>
    intro j target fl h1 h2
    rw [splitLoop]
    by_cases hjt : j > target
    · rw [if_pos hjt]
      dsimp only
      rw [ih (j - 1) target _ (by omega) (by omega)]
      rw [claimSplit, claimSplit]
      have h3 : j - target = ((j - 1) - target) + 1 := by omega
      rw [h3, List.range'_1_concat]
      have h4 : target + (j - 1 - target) = j - 1 := by omega
      rw [h4, List.reverse_append]
      simp only [List.reverse_singleton, List.singleton_append, List.foldl_cons]
    · rw [if_neg hjt]
      have he : j = target := by omega
      subst he
      simp [claimSplit, Nat.sub_self]

/-- **C2**.  `alloc`/`find_free_block` computes the smallest order `k`
with `PAGE_SIZE << k ≥ max(size, align)`; it returns null when `k ≥
MAX_ORDERS` or when every free list of order in `[k, MAX_ORDERS)` is
empty; otherwise it pops one block from the smallest non-empty order
`j ≥ k`, splits downward keeping the lower half and pushing the upper
half `blockAddr + PAGE_SIZE * 2^o` at each order `o ∈ [k, j)`, marks the
spanned minimum blocks allocated in the bitmap, and returns the block's
base address. -/
theorem buddy_alloc_spec (b : BuddyAllocator) (size align : Nat)
    (hmin : b.minBlockSize = PAGE_SIZE) :
    ((MAX_ORDERS ≤ leastOrder (max size align) ∨
        ∀ j, leastOrder (max size align) ≤ j → j < MAX_ORDERS →
          (b.freeLists.getD j []).isEmpty = true) →
      buddyAlloc b size align = .ok (none, b)) ∧
    (∀ j, leastOrder (max size align) ≤ j → j < MAX_ORDERS →
      (b.freeLists.getD j []).isEmpty = false →
      (∀ j', leastOrder (max size align) ≤ j' → j' < j →
        (b.freeLists.getD j' []).isEmpty = true) →
      ∃ blockAddr rest, popBack (b.freeLists.getD j []) = some (blockAddr, rest) ∧
        buddyAlloc b size align =
          (markBitsAlloc b.map ((blockAddr - b.base) / PAGE_SIZE)
              (1 <<< leastOrder (max size align))).bind fun map' =>
            .ok (some blockAddr,
              { b with
                freeLists := claimSplit blockAddr (leastOrder (max size align)) j
                  (b.freeLists.set j rest),
                map := map' })) := by
  constructor
  · intro hcase
    unfold buddyAlloc findFreeBlock
    dsimp only
    rw [hmin, orderLoop_eq_leastOrder]
    rcases hcase with hk | hempty
    · rw [if_pos hk]
    · by_cases hk32 : MAX_ORDERS ≤ leastOrder (max size align)
      · rw [if_pos hk32]
      · rw [if_neg hk32]
        rw [searchLoop_all_empty b.freeLists MAX_ORDERS (leastOrder (max size align))
          (by omega) (by omega) hempty]
        rw [if_pos rfl]
  · intro j hjk hj32 hne hleast
    obtain ⟨x, rest, hpop⟩ := popBack_isSome hne
    refine ⟨x, rest, hpop, ?_⟩
    unfold buddyAlloc findFreeBlock
    dsimp only
    rw [hmin, orderLoop_eq_leastOrder]
    rw [if_neg (by omega)]
    rw [searchLoop_finds b.freeLists j hj32 hne MAX_ORDERS (leastOrder (max size align))
      (by have hM : MAX_ORDERS = 32 := rfl; omega) hjk hleast]
    rw [if_neg (by omega)]
    rw [hpop]
    dsimp only
    rw [splitLoop_eq_claimSplit x MAX_ORDERS j (leastOrder (max size align))
      (b.freeLists.set j rest) hjk (by have hM : MAX_ORDERS = 32 := rfl; omega)]

/-- Witness for C2: a page-sized allocation out of `buddyW` pops the
block at order 0 and follows the claim's description. -/
theorem buddy_alloc_spec_witness :
    ∃ blockAddr rest, popBack (buddyW.freeLists.getD 0 []) = some (blockAddr, rest) ∧
      buddyAlloc buddyW 4096 4096 =
        (markBitsAlloc buddyW.map ((blockAddr - buddyW.base) / PAGE_SIZE)
            (1 <<< leastOrder (max 4096 4096))).bind fun map' =>
          .ok (some blockAddr,
            { buddyW with
              freeLists := claimSplit blockAddr (leastOrder (max 4096 4096)) 0
                (buddyW.freeLists.set 0 rest),
              map := map' }) := by
  have hL : leastOrder (max 4096 4096) = 0 := by
    rw [show max 4096 4096 = 4096 from rfl]
    exact leastOrder_eq (by norm_num [PAGE_SIZE]) (by omega)
  exact (buddy_alloc_spec buddyW 4096 4096 rfl).2 0 (by rw [hL]) (by decide)
    (by decide) (by omega)

/-! ## Slab caches (`memory/slab.rs`) and the heap dispatcher (`memory/allocator.rs`)

A slab's on-slab metadata (`struct Slab`) lives at the base of its
region; we identify a slab by that base address (`addr`).  The embedded
free list (each free object's first word holding the next free object's
address, 0-terminated) is modelled as the list of free object addresses,
head = `first_free_object`.  `buddyResult` stands for the address the
buddy allocator returns for a new slab (`none` = buddy unavailable,
`some 0` = null).  On i386, `size_of::<Slab>() = 28` (three 4-byte
pointers in the intrusive node, the cache pointer, `base_vaddr`,
`objects_in_use`, and the niche-optimised `Option<NonNull<u8>>`) and
`align_of::<usize>() = 4`. -/

/-- `size_of::<Slab>()` on i386. -/
def SLAB_METADATA_SIZE : Nat := 28

/-- `align_of::<usize>()` on i386. -/
def OBJ_ALIGN : Nat := 4

/-- On-slab metadata, identified by the slab region's base address. -/
structure Slab where
  addr : Nat
  baseVaddr : Nat
  objectsInUse : Nat
  freeList : List Nat
  deriving Repr, DecidableEq

/-- `SlabCache` state. -/
structure SlabCache where
  slabsFull : List Slab
  slabsPartial : List Slab
  slabsFree : List Slab
  objectSize : Nat
  slabOrder : Nat
  objectsPerSlab : Nat
  deriving Repr, DecidableEq

/-- `SlabCache::new(size, slab_order)`: computes `objects_per_slab` from
the slab size minus the aligned metadata offset; panics when no object
fits. -/
def SlabCache.new (size slabOrder : Nat) : Except String SlabCache :=
  let objectAlign := OBJ_ALIGN
  let metadataSize := SLAB_METADATA_SIZE
  let slabSize := PAGE_SIZE <<< slabOrder
  let offset := ((metadataSize + objectAlign - 1) / objectAlign) * objectAlign
  let usableSpace := slabSize - offset
  let objectsPerSlab := if size > 0 then usableSpace / size else 0
  if objectsPerSlab = 0 ∧ size > 0 then
    .error "Slab order is too small for object size with on-slab metadata!"
  else
    .ok { slabsFull := [], slabsPartial := [], slabsFree := [],
          objectSize := size, slabOrder := slabOrder, objectsPerSlab := objectsPerSlab }

/-- `SlabCache::setup_free_list`: the chained free slots
`start, start + size, …` (each slot's first word holding the next slot's
address, the last holding 0); `None` when there are no slots or the
object size cannot hold a pointer. -/
def setupFreeList (start count objectSize : Nat) : Option (List Nat) :=
  if count = 0 ∨ objectSize < 4 then none
  else some ((List.range count).map fun i => start + i * objectSize)

/-- `SlabCache::add_object`: pop the popped slab's first free object,
bump `objects_in_use`, and push the slab at the front of `full` or
`partial`.  An exhausted free list returns `None` (and the popped slab
is not reinserted, exactly as the code's early `?` return). -/
def addObject (c : SlabCache) (s : Slab) : Option Nat × SlabCache :=
  match s.freeList with
  | [] => (none, c)
  | obj :: rest =>
    let s' := { s with objectsInUse := s.objectsInUse + 1, freeList := rest }
    if s'.objectsInUse = c.objectsPerSlab then
      (some obj, { c with slabsFull := s' :: c.slabsFull })
    else
      (some obj, { c with slabsPartial := s' :: c.slabsPartial })

/-- `SlabCache::alloc(layout)` with the buddy's answer for a possible new
slab passed as `buddyResult`. -/
def slabAlloc (c : SlabCache) (layoutSize : Nat) (buddyResult : Option Nat) :
    Except String (Option Nat × SlabCache) :=
  if ¬layoutSize ≤ c.objectSize then .error "assert failed: layout.size() <= self.object_size"
  else if c.slabsPartial.isEmpty = false then
    match c.slabsPartial with
    | [] => .ok (none, c)
    | s :: rest => .ok (addObject { c with slabsPartial := rest } s)
  else if c.slabsFree.isEmpty = false then
    match c.slabsFree with
    | [] => .ok (none, c)
    | s :: rest => .ok (addObject { c with slabsFree := rest } s)
  else
    match buddyResult with
    | none => .ok (none, c)
    | some addr =>
      if addr = 0 then .ok (none, c)
      else
        let slabSize := (1 <<< c.slabOrder) * PAGE_SIZE
        let objectStart := alignedAddr (addr + SLAB_METADATA_SIZE) OBJ_ALIGN
        let objectEnd := addr + slabSize
        let objectAreaSize := objectEnd - objectStart
        let objectsInSlab := objectAreaSize / c.objectSize
        match setupFreeList objectStart objectsInSlab c.objectSize with
        | none => .error "Newly initialized slab has no free objects!"
        | some chain =>
          match chain with
          | [] => .error "Newly initialized slab has no free objects!"
          | obj :: restChain =>
            let newSlab : Slab :=
              { addr := addr, baseVaddr := objectStart, objectsInUse := 1,
                freeList := if objectsInSlab > 1 then restChain else [] }
            .ok (some obj, { c with slabsPartial := c.slabsPartial ++ [newSlab] })

/-- Linear search for the slab whose header sits at address `a` (the
code reaches it directly through the pointer `ptr & !(slab_size-1)`;
with distinct slab bases this lookup is that dereference). -/
def findSlabIn (l : List Slab) (a : Nat) : Option Slab :=
  l.find? fun s => s.addr == a

/-- Locate a slab of the cache by base address. -/
def findSlab (c : SlabCache) (a : Nat) : Option Slab :=
  match findSlabIn c.slabsFull a with
  | some s => some s
  | none =>
    match findSlabIn c.slabsPartial a with
    | some s => some s
    | none => findSlabIn c.slabsFree a

/-- Remove the slab with base `a` (the intrusive-node unlink). -/
def eraseSlab : List Slab → Nat → List Slab
  | [], _ => []
  | s :: rest, a => if s.addr = a then rest else s :: eraseSlab rest a

/-- In-place update (through the slab pointer) of the slab with base `a`. -/
def replaceIn (l : List Slab) (a : Nat) (s' : Slab) : List Slab :=
  l.map fun s => if s.addr = a then s' else s

/-- `SlabCache::dealloc(ptr, layout)` (the `debug_assert!`s are no-ops in
release builds and are not modelled).  The freed object is pushed at the
head of its slab's free list; the slab moves `full → partial` when it
was full, `partial → free` when this was its last object, and stays in
place otherwise; `objects_in_use` is decremented. -/
def slabDealloc (c : SlabCache) (ptr _layoutSize : Nat) : SlabCache :=
  let slabAllocSize := (1 <<< c.slabOrder) * PAGE_SIZE
  let slabBase := (ptr / slabAllocSize) * slabAllocSize
  match findSlab c slabBase with
  | none => c
  | some s =>
    let s' := { s with freeList := ptr :: s.freeList, objectsInUse := s.objectsInUse - 1 }
    if s.objectsInUse = c.objectsPerSlab then
      { c with slabsFull := eraseSlab c.slabsFull slabBase,
               slabsPartial := c.slabsPartial ++ [s'] }
    else if s.objectsInUse = 1 then
      { c with slabsPartial := eraseSlab c.slabsPartial slabBase,
               slabsFree := c.slabsFree ++ [s'] }
    else
      { c with slabsFull := replaceIn c.slabsFull slabBase s',
               slabsPartial := replaceIn c.slabsPartial slabBase s',
               slabsFree := replaceIn c.slabsFree slabBase s' }

/-- `CACHE_SIZES` (`memory/allocator.rs`). -/
def CACHE_SIZES : List Nat := [4, 8, 16, 32, 64, 128, 256, 512, 1024]

/-- `KernelAllocator::alloc`: null on a zero-size layout; otherwise pick
the first cache whose class size is at least the request (panicking when
none fits) and allocate from it. -/
def kernelAlloc (caches : List SlabCache) (layoutSize : Nat) (buddyResult : Option Nat) :
    Except String (Option Nat × List SlabCache) :=
  if layoutSize = 0 then .ok (none, caches)
  else
    match CACHE_SIZES.findIdx? (fun cs => layoutSize ≤ cs) with
    | none => .error "dealloc: No suitable cache found"
    | some index =>
      match caches.get? index with
      | none => .error "FATAL: Slab cache out of bounds during dealloc!"
      | some cache =>
        (slabAlloc cache layoutSize buddyResult).map fun rc => (rc.1, caches.set index rc.2)

/-- C10: A zero-size heap request returns the null pointer immediately:
`KernelAllocator::alloc` with `layout.size() == 0` yields null without
selecting a size class or touching any slab cache state. -/
theorem kernel_alloc_zero_size (caches : List SlabCache) (buddyResult : Option Nat) :
    kernelAlloc caches 0 buddyResult = .ok (none, caches) := rfl

/-! ### Slab list invariants (C9) -/

/-- Every slab the cache owns, in list order full, partial, free. -/
def allSlabs (c : SlabCache) : List Slab :=
  c.slabsFull ++ c.slabsPartial ++ c.slabsFree

/-- The per-list `objects_in_use` invariants. -/
def CountInv (c : SlabCache) : Prop :=
  (∀ s ∈ c.slabsFull, s.objectsInUse = c.objectsPerSlab) ∧
  (∀ s ∈ c.slabsPartial, 0 < s.objectsInUse ∧ s.objectsInUse < c.objectsPerSlab) ∧
  (∀ s ∈ c.slabsFree, s.objectsInUse = 0)

/-- The slabs of a cache have pairwise distinct base addresses (each slab
is its own block from the buddy allocator). -/
def AddrInv (c : SlabCache) : Prop :=
  ((allSlabs c).map Slab.addr).Nodup

/-- Cache states reachable from `SlabCache::new(size, order)` by any
sequence of `alloc` and `dealloc` calls, where the buddy allocator hands
a new slab an address that is not the base of a slab the cache already
owns. -/
inductive ReachCache (size order : Nat) : SlabCache → Prop where
  | init (c : SlabCache) :
      SlabCache.new size order = .ok c → ReachCache size order c
  | alloc (c : SlabCache) (ls : Nat) (br : Option Nat) (r : Option Nat) (c' : SlabCache) :
      ReachCache size order c →
      (∀ a, br = some a → a ∉ (allSlabs c).map Slab.addr) →
      slabAlloc c ls br = .ok (r, c') →
      ReachCache size order c'
  | dealloc (c : SlabCache) (ptr ls : Nat) :
      ReachCache size order c →
      ReachCache size order (slabDealloc c ptr ls)

theorem eraseSlab_subset {l : List Slab} {a : Nat} :
    ∀ t ∈ eraseSlab l a, t ∈ l := by
  induction l with
  | nil => intro t ht; simp [eraseSlab] at ht
  | cons x rest ih =>
    intro t ht
    by_cases hx : x.addr = a
    · rw [eraseSlab, if_pos hx] at ht
      exact List.mem_cons_of_mem _ ht
    · rw [eraseSlab, if_neg hx] at ht
      rcases List.mem_cons.mp ht with h | h
      · exact h ▸ List.mem_cons_self _ _
      · exact List.mem_cons_of_mem _ (ih t h)

theorem findSlabIn_none {l : List Slab} {a : Nat} (h : findSlabIn l a = none) :
    ∀ t ∈ l, t.addr ≠ a := by
  intro t ht
  have := List.find?_eq_none.mp h t ht
  simpa using this

/-- A successful slab lookup splits the list at the first address match,
and `eraseSlab` removes exactly that element. -/
theorem findSlabIn_split {l : List Slab} {a : Nat} {s : Slab}
    (h : findSlabIn l a = some s) :
    ∃ l₁ l₂, l = l₁ ++ s :: l₂ ∧ eraseSlab l a = l₁ ++ l₂ ∧ s.addr = a := by
  induction l with
  | nil => simp [findSlabIn] at h
  | cons x rest ih =>
    by_cases hx : x.addr = a
    · have hfind : findSlabIn (x :: rest) a = some x := by
        simp [findSlabIn, List.find?_cons_of_pos, hx]
      rw [hfind] at h
      injection h with h
      subst h
      exact ⟨[], rest, rfl, by rw [eraseSlab, if_pos hx]; rfl, hx⟩
    · have hfind : findSlabIn (x :: rest) a = findSlabIn rest a := by
        simp [findSlabIn]
        rw [List.find?_cons_of_neg]
        simp [hx]
      rw [hfind] at h
      obtain ⟨l₁, l₂, hl, he, ha⟩ := ih h
      exact ⟨x :: l₁, l₂, by rw [hl]; rfl,
        by rw [eraseSlab, if_neg hx, he]; rfl, ha⟩

theorem replaceIn_mem {l : List Slab} {a : Nat} {s' : Slab} :
    ∀ t ∈ replaceIn l a s', t = s' ∨ t ∈ l := by
  intro t ht
  obtain ⟨u, hu, hut⟩ := List.mem_map.mp ht
  by_cases h : u.addr = a
  · left; rw [← hut, if_pos h]
  · right; rw [← hut, if_neg h]; exact hu

theorem replaceIn_id {l : List Slab} {a : Nat} {s' : Slab}
    (h : ∀ t ∈ l, t.addr ≠ a) : replaceIn l a s' = l := by
  unfold replaceIn
  conv_rhs => rw [← List.map_id l]
  refine List.map_congr_left ?_
  intro t ht
  rw [if_neg (h t ht)]
  rfl

theorem replaceIn_map_addr {l : List Slab} {a : Nat} {s' : Slab}
    (h : s'.addr = a) :
    (replaceIn l a s').map Slab.addr = l.map Slab.addr := by
  unfold replaceIn
  rw [List.map_map]
  refine List.map_congr_left ?_
  intro t _
  by_cases ht : t.addr = a
  · simp [ht, h]
  · simp [ht]

/-- Moving an element out of the middle of a list preserves `Nodup` of
the mapped addresses. -/
theorem nodup_middle_map (x : Slab) (l₁ l₂ : List Slab) :
    ((l₁ ++ x :: l₂).map Slab.addr).Nodup ↔
      (x.addr :: (l₁ ++ l₂).map Slab.addr).Nodup :=
  (List.perm_middle.map Slab.addr).nodup_iff

theorem addObject_objectsPerSlab (c : SlabCache) (s : Slab) :
    (addObject c s).2.objectsPerSlab = c.objectsPerSlab := by
  unfold addObject
  rcases s with ⟨ad, bv, iu, fl⟩
  cases fl with
  | nil => rfl
  | cons q t =>
    dsimp only
    split <;> rfl

theorem addObject_fst {c : SlabCache} {s : Slab} {q : Nat} {t : List Nat}
    (h : s.freeList = q :: t) : (addObject c s).1 = some q := by
  unfold addObject
  rw [h]
  dsimp only
  split <;> rfl

theorem slabDealloc_objectsPerSlab (c : SlabCache) (ptr ls : Nat) :
    (slabDealloc c ptr ls).objectsPerSlab = c.objectsPerSlab := by
  unfold slabDealloc
  dsimp only
  split
  · rfl
  · split
    · rfl
    · split <;> rfl

/-- `add_object` preserves the per-list counts and address distinctness,
given that the popped slab `s` is not full and its address is fresh with
respect to the remaining lists. -/
theorem addObject_inv (c : SlabCache) (s : Slab)
    (hfull : ∀ t ∈ c.slabsFull, t.objectsInUse = c.objectsPerSlab)
    (hpart : ∀ t ∈ c.slabsPartial, 0 < t.objectsInUse ∧ t.objectsInUse < c.objectsPerSlab)
    (hfree : ∀ t ∈ c.slabsFree, t.objectsInUse = 0)
    (hnd : (s.addr :: (allSlabs c).map Slab.addr).Nodup)
    (hs : s.objectsInUse < c.objectsPerSlab) :
    CountInv (addObject c s).2 ∧ AddrInv (addObject c s).2 := by
  unfold addObject
  cases hfl : s.freeList with
  | nil =>
    dsimp only
    exact ⟨⟨hfull, hpart, hfree⟩, hnd.of_cons⟩
  | cons q t =>
    dsimp only
    split
    next h =>
      refine ⟨⟨?_, hpart, hfree⟩, ?_⟩
      · intro u hu
        rcases List.mem_cons.mp hu with rfl | hu
        · exact h
        · exact hfull u hu
      · exact hnd
    next h =>
      refine ⟨⟨hfull, ?_, hfree⟩, ?_⟩
      · intro u hu
        rcases List.mem_cons.mp hu with rfl | hu
        · dsimp only
          omega
        · exact hpart u hu
      · unfold allSlabs at hnd
        unfold AddrInv allSlabs
        dsimp only
        rw [List.append_assoc, List.cons_append]
        refine (nodup_middle_map _ _ _).mpr ?_
        rw [← List.append_assoc]
        exact hnd

/-- Requeueing a slab from the first list to the back of the second
preserves distinctness of the mapped addresses. -/
theorem nodup_requeue (s s' : Slab) (h : s'.addr = s.addr)
    (l₁ l₂ p f : List Slab)
    (hnd : (((l₁ ++ s :: l₂) ++ p ++ f).map Slab.addr).Nodup) :
    (((l₁ ++ l₂) ++ (p ++ [s']) ++ f).map Slab.addr).Nodup := by
  have e1 : (l₁ ++ s :: l₂) ++ p ++ f = l₁ ++ s :: (l₂ ++ p ++ f) := by
    simp [List.append_assoc]
  have e2 : (l₁ ++ l₂) ++ (p ++ [s']) ++ f = (l₁ ++ (l₂ ++ p)) ++ s' :: f := by
    simp [List.append_assoc]
  rw [e1] at hnd
  rw [e2]
  have h1 := (nodup_middle_map s l₁ (l₂ ++ p ++ f)).mp hnd
  refine (nodup_middle_map s' (l₁ ++ (l₂ ++ p)) f).mpr ?_
  rw [h]
  have e3 : (l₁ ++ (l₂ ++ p)) ++ f = l₁ ++ (l₂ ++ p ++ f) := by
    simp [List.append_assoc]
  rw [e3]
  exact h1

/-- Requeueing a slab from the middle list to the back of the third list
preserves distinctness of the mapped addresses. -/
theorem nodup_requeue2 (s s' : Slab) (h : s'.addr = s.addr)
    (fu l₁ l₂ f : List Slab)
    (hnd : ((fu ++ (l₁ ++ s :: l₂) ++ f).map Slab.addr).Nodup) :
    ((fu ++ (l₁ ++ l₂) ++ (f ++ [s'])).map Slab.addr).Nodup := by
  have e1 : fu ++ (l₁ ++ s :: l₂) ++ f = (fu ++ l₁) ++ s :: (l₂ ++ f) := by
    simp [List.append_assoc]
  have e2 : fu ++ (l₁ ++ l₂) ++ (f ++ [s']) = (fu ++ (l₁ ++ (l₂ ++ f))) ++ s' :: [] := by
    simp [List.append_assoc]
  rw [e1] at hnd
  rw [e2]
  have h1 := (nodup_middle_map s (fu ++ l₁) (l₂ ++ f)).mp hnd
  refine (nodup_middle_map s' (fu ++ (l₁ ++ (l₂ ++ f))) []).mpr ?_
  rw [h]
  have e3 : (fu ++ (l₁ ++ (l₂ ++ f))) ++ ([] : List Slab) = (fu ++ l₁) ++ (l₂ ++ f) := by
    simp [List.append_assoc]
  rw [e3]
  exact h1

theorem nodup_partial_free_disjoint {fu p f : List Slab}
    (hnd : ((fu ++ p ++ f).map Slab.addr).Nodup) {s t : Slab}
    (hs : s ∈ p) (ht : t ∈ f) : s.addr ≠ t.addr := by
  simp only [List.map_append] at hnd
  have h1 := List.nodup_append.mp hnd
  intro he
  exact h1.2.2 (List.mem_append_right _ (List.mem_map_of_mem _ hs))
    (he ▸ List.mem_map_of_mem _ ht)

/-- The slab-cache invariants (per-list counts, distinct slab addresses,
at least two objects per slab) hold in every reachable state of a cache
for one of the kernel's object sizes. -/
theorem reach_inv {size order : Nat} {c : SlabCache}
    (hsz : 0 < size) (hsz2 : size ≤ 1024) (horder : order = 0)
    (h : ReachCache size order c) :
    CountInv c ∧ AddrInv c ∧ 2 ≤ c.objectsPerSlab := by
  subst horder
  induction h with
  | init c h =>
    have h3 : (4068 : Nat) / 1024 ≤ 4068 / size := Nat.div_le_div_left hsz2 hsz
    have h34 : (4068 : Nat) / 1024 = 3 := by norm_num
    unfold SlabCache.new at h
    dsimp only at h
    rw [if_pos hsz] at h
    rw [show (PAGE_SIZE <<< 0 - (SLAB_METADATA_SIZE + OBJ_ALIGN - 1) / OBJ_ALIGN * OBJ_ALIGN : Nat)
        = 4068 from rfl] at h
    rw [if_neg (by omega : ¬((4068 : Nat) / size = 0 ∧ size > 0))] at h
    injection h with h
    subst h
    refine ⟨⟨?_, ?_, ?_⟩, ?_, ?_⟩
    · intro t ht; exact absurd ht (List.not_mem_nil t)
    · intro t ht; exact absurd ht (List.not_mem_nil t)
    · intro t ht; exact absurd ht (List.not_mem_nil t)
    · exact List.nodup_nil
    · dsimp only; omega
  | alloc c ls br r c' hre hfresh hstep ih =>
    obtain ⟨⟨hfull, hpart, hfree⟩, hnd, hper⟩ := ih
    unfold AddrInv allSlabs at hnd
    unfold slabAlloc at hstep
    split at hstep
    · exact Except.noConfusion hstep
    split at hstep
    next hP =>
      split at hstep
      next hPe =>
        injection hstep with hstep
        injection hstep with h1 h2
        subst h2
        exact ⟨⟨hfull, hpart, hfree⟩, hnd, hper⟩
      next s rest hPe =>
        injection hstep with hstep
        have hc' : c' = (addObject {c with slabsPartial := rest} s).2 := by rw [hstep]
        subst hc'
        rw [hPe] at hnd
        have hnd₁ : (s.addr :: (allSlabs {c with slabsPartial := rest}).map Slab.addr).Nodup := by
          unfold allSlabs
          dsimp only
          rw [List.append_assoc, List.cons_append] at hnd
          have h2 := (nodup_middle_map s c.slabsFull (rest ++ c.slabsFree)).mp hnd
          rwa [← List.append_assoc] at h2
        have hsl : s ∈ c.slabsPartial := by
          rw [hPe]; exact List.mem_cons_self _ _
        have key := addObject_inv {c with slabsPartial := rest} s hfull
          (fun t ht => hpart t (by rw [hPe]; exact List.mem_cons_of_mem _ ht))
          hfree hnd₁ (hpart s hsl).2
        refine ⟨key.1, key.2, ?_⟩
        rw [addObject_objectsPerSlab]
        exact hper
    next hP =>
      split at hstep
      next hF =>
        split at hstep
        next hFe =>
          injection hstep with hstep
          injection hstep with h1 h2
          subst h2
          exact ⟨⟨hfull, hpart, hfree⟩, hnd, hper⟩
        next s rest hFe =>
          injection hstep with hstep
          have hc' : c' = (addObject {c with slabsFree := rest} s).2 := by rw [hstep]
          subst hc'
          rw [hFe] at hnd
          have hnd₁ : (s.addr :: (allSlabs {c with slabsFree := rest}).map Slab.addr).Nodup := by
            unfold allSlabs
            dsimp only
            exact (nodup_middle_map s (c.slabsFull ++ c.slabsPartial) rest).mp hnd
          have hs0 : s.objectsInUse = 0 := hfree s (by rw [hFe]; exact List.mem_cons_self _ _)
          have key := addObject_inv {c with slabsFree := rest} s hfull hpart
            (fun t ht => hfree t (by rw [hFe]; exact List.mem_cons_of_mem _ ht))
            hnd₁ (show s.objectsInUse < c.objectsPerSlab by omega)
          refine ⟨key.1, key.2, ?_⟩
          rw [addObject_objectsPerSlab]
          exact hper
      next hF =>
        have hPe : c.slabsPartial = [] := by
          cases hb : c.slabsPartial.isEmpty with
          | false => exact absurd hb hP
          | true => exact List.isEmpty_iff.mp hb
        have hFe : c.slabsFree = [] := by
          cases hb : c.slabsFree.isEmpty with
          | false => exact absurd hb hF
          | true => exact List.isEmpty_iff.mp hb
        split at hstep
        · injection hstep with hstep
          injection hstep with h1 h2
          subst h2
          exact ⟨⟨hfull, hpart, hfree⟩, hnd, hper⟩
        next a =>
          split at hstep
          next ha =>
            injection hstep with hstep
            injection hstep with h1 h2
            subst h2
            exact ⟨⟨hfull, hpart, hfree⟩, hnd, hper⟩
          next ha =>
            dsimp only at hstep
            split at hstep
            next hsf => exact Except.noConfusion hstep
            next chain hsf =>
              split at hstep
              next hch => exact Except.noConfusion hstep
              next obj restChain hch =>
                injection hstep with hstep
                injection hstep with h1 h2
                subst h2
                have hafresh := hfresh a rfl
                unfold allSlabs at hafresh
                rw [hPe, hFe] at hafresh
                simp only [List.append_nil] at hafresh
                rw [hPe, hFe] at hnd
                simp only [List.append_nil] at hnd
                refine ⟨⟨?_, ?_, ?_⟩, ?_, ?_⟩
                · exact hfull
                · intro t ht
                  rw [hPe] at ht
                  simp only [List.nil_append, List.mem_singleton] at ht
                  subst ht
                  refine ⟨Nat.one_pos, ?_⟩
                  show 1 < c.objectsPerSlab
                  omega
                · intro t ht
                  rw [hFe] at ht
                  exact absurd ht (List.not_mem_nil t)
                · unfold AddrInv allSlabs
                  dsimp only
                  rw [hPe, hFe]
                  simp only [List.nil_append, List.append_nil]
                  rw [List.map_append]
                  refine List.Nodup.append hnd (List.nodup_singleton _) ?_
                  intro x hx hx'
                  simp only [List.map_cons, List.map_nil, List.mem_singleton] at hx'
                  subst hx'
                  exact hafresh hx
                · exact hper
  | dealloc c ptr ls hre ih =>
    obtain ⟨⟨hfull, hpart, hfree⟩, hnd, hper⟩ := ih
    unfold AddrInv allSlabs at hnd
    unfold slabDealloc
    dsimp only
    rcases hF : findSlab c (ptr / ((1 <<< c.slabOrder) * PAGE_SIZE) *
        ((1 <<< c.slabOrder) * PAGE_SIZE)) with _ | s
    · dsimp only
      exact ⟨⟨hfull, hpart, hfree⟩, hnd, hper⟩
    · dsimp only
      unfold findSlab at hF
      split at hF
      next f hFu =>
        injection hF with hF
        subst hF
        obtain ⟨l₁, l₂, hsplit, herase, haddr⟩ := findSlabIn_split hFu
        have hfm : f ∈ c.slabsFull := by
          rw [hsplit]; exact List.mem_append.mpr (Or.inr (List.mem_cons_self _ _))
        have hiu : f.objectsInUse = c.objectsPerSlab := hfull f hfm
        rw [if_pos hiu]
        refine ⟨⟨?_, ?_, ?_⟩, ?_, hper⟩
        · intro t ht
          exact hfull t (eraseSlab_subset t ht)
        · intro t ht
          rcases List.mem_append.mp ht with h | h
          · exact hpart t h
          · rw [List.mem_singleton] at h
            subst h
            constructor
            · show 0 < f.objectsInUse - 1
              omega
            · show f.objectsInUse - 1 < c.objectsPerSlab
              omega
        · exact hfree
        · unfold AddrInv allSlabs
          dsimp only
          rw [herase]
          rw [hsplit] at hnd
          exact nodup_requeue f ⟨f.addr, f.baseVaddr, f.objectsInUse - 1, ptr :: f.freeList⟩
            rfl l₁ l₂ c.slabsPartial c.slabsFree hnd
      next hFu =>
        split at hF
        next p hFp =>
          injection hF with hF
          subst hF
          obtain ⟨l₁, l₂, hsplit, herase, haddr⟩ := findSlabIn_split hFp
          have hpm : p ∈ c.slabsPartial := by
            rw [hsplit]; exact List.mem_append.mpr (Or.inr (List.mem_cons_self _ _))
          have hbounds := hpart p hpm
          rw [if_neg (show ¬p.objectsInUse = c.objectsPerSlab by omega)]
          by_cases h1 : p.objectsInUse = 1
          · rw [if_pos h1]
            refine ⟨⟨?_, ?_, ?_⟩, ?_, hper⟩
            · exact hfull
            · intro t ht
              refine hpart t ?_
              rw [herase] at ht
              rw [hsplit]
              rcases List.mem_append.mp ht with h | h
              · exact List.mem_append.mpr (Or.inl h)
              · exact List.mem_append.mpr (Or.inr (List.mem_cons_of_mem _ h))
            · intro t ht
              rcases List.mem_append.mp ht with h | h
              · exact hfree t h
              · rw [List.mem_singleton] at h
                subst h
                show p.objectsInUse - 1 = 0
                omega
            · unfold AddrInv allSlabs
              dsimp only
              rw [herase]
              rw [hsplit] at hnd
              exact nodup_requeue2 p ⟨p.addr, p.baseVaddr, p.objectsInUse - 1, ptr :: p.freeList⟩
                rfl c.slabsFull l₁ l₂ c.slabsFree hnd
          · rw [if_neg h1]
            have hfreene : ∀ t ∈ c.slabsFree,
                t.addr ≠ ptr / ((1 <<< c.slabOrder) * PAGE_SIZE) *
                  ((1 <<< c.slabOrder) * PAGE_SIZE) := by
              intro t ht he
              exact nodup_partial_free_disjoint hnd hpm ht (by rw [haddr, he])
            rw [replaceIn_id (findSlabIn_none hFu), replaceIn_id hfreene]
            refine ⟨⟨?_, ?_, ?_⟩, ?_, hper⟩
            · exact hfull
            · intro t ht
              rcases replaceIn_mem t ht with h | h
              · subst h
                constructor
                · show 0 < p.objectsInUse - 1
                  omega
                · show p.objectsInUse - 1 < c.objectsPerSlab
                  omega
              · exact hpart t h
            · exact hfree
            · unfold AddrInv allSlabs
              dsimp only
              have hrepl : (replaceIn c.slabsPartial
                  (ptr / ((1 <<< c.slabOrder) * PAGE_SIZE) * ((1 <<< c.slabOrder) * PAGE_SIZE))
                  ⟨p.addr, p.baseVaddr, p.objectsInUse - 1, ptr :: p.freeList⟩).map Slab.addr
                  = c.slabsPartial.map Slab.addr := replaceIn_map_addr haddr
              rw [List.map_append, List.map_append, hrepl,
                ← List.map_append, ← List.map_append]
              exact hnd
        next hFp =>
          obtain ⟨l₁, l₂, hsplit, herase, haddr⟩ := findSlabIn_split hF
          have hfm : s ∈ c.slabsFree := by
            rw [hsplit]; exact List.mem_append.mpr (Or.inr (List.mem_cons_self _ _))
          have h0 : s.objectsInUse = 0 := hfree s hfm
          rw [if_neg (show ¬s.objectsInUse = c.objectsPerSlab by omega),
            if_neg (show ¬s.objectsInUse = 1 by omega)]
          rw [replaceIn_id (findSlabIn_none hFu), replaceIn_id (findSlabIn_none hFp)]
          refine ⟨⟨?_, ?_, ?_⟩, ?_, hper⟩
          · exact hfull
          · exact hpart
          · intro t ht
            rcases replaceIn_mem t ht with h | h
            · subst h
              show s.objectsInUse - 1 = 0
              omega
            · exact hfree t h
          · unfold AddrInv allSlabs
            dsimp only
            have hrepl : (replaceIn c.slabsFree
                (ptr / ((1 <<< c.slabOrder) * PAGE_SIZE) * ((1 <<< c.slabOrder) * PAGE_SIZE))
                ⟨s.addr, s.baseVaddr, s.objectsInUse - 1, ptr :: s.freeList⟩).map Slab.addr
                = c.slabsFree.map Slab.addr := replaceIn_map_addr haddr
            rw [List.map_append, hrepl, ← List.map_append]
            exact hnd

/-- C9: In every state reachable by any sequence of `SlabCache::alloc`
and `SlabCache::dealloc` operations on a cache created with one of the
kernel's `CACHE_SIZES` object sizes at slab order 0 (as done by
`memory_init`), every slab on the full list has `objects_in_use` equal
to `objects_per_slab`, every slab on the free list has `objects_in_use`
equal to 0, and every slab on the partial list has
`0 < objects_in_use < objects_per_slab`. -/
theorem slab_list_invariants (size order : Nat) (c : SlabCache)
    (hsize : size ∈ CACHE_SIZES) (horder : order = 0)
    (h : ReachCache size order c) :
    (∀ s ∈ c.slabsFull, s.objectsInUse = c.objectsPerSlab) ∧
    (∀ s ∈ c.slabsPartial, 0 < s.objectsInUse ∧ s.objectsInUse < c.objectsPerSlab) ∧
    (∀ s ∈ c.slabsFree, s.objectsInUse = 0) := by
  have hb : 0 < size ∧ size ≤ 1024 := by
    simp only [CACHE_SIZES, List.mem_cons, List.not_mem_nil, or_false] at hsize
    rcases hsize with rfl | rfl | rfl | rfl | rfl | rfl | rfl | rfl | rfl <;>
      exact ⟨by norm_num, by norm_num⟩
  exact (reach_inv hb.1 hb.2 horder h).1

/-- The empty 1024-byte cache produced by `SlabCache::new(1024, 0)`. -/
def c9New : SlabCache :=
  { slabsFull := [], slabsPartial := [], slabsFree := [],
    objectSize := 1024, slabOrder := 0, objectsPerSlab := 3 }

/-- The 1024-byte cache after one allocation backed by a fresh slab from
the buddy allocator at address `0x400000`. -/
def c9Mid : SlabCache :=
  { slabsFull := [],
    slabsPartial := [⟨4194304, 4194332, 1, [4195356, 4196380]⟩],
    slabsFree := [], objectSize := 1024, slabOrder := 0, objectsPerSlab := 3 }

theorem slab_list_invariants_witness :
    (∀ s ∈ (slabDealloc c9Mid 4194332 1024).slabsFull,
        s.objectsInUse = (slabDealloc c9Mid 4194332 1024).objectsPerSlab) ∧
    (∀ s ∈ (slabDealloc c9Mid 4194332 1024).slabsPartial,
        0 < s.objectsInUse ∧
          s.objectsInUse < (slabDealloc c9Mid 4194332 1024).objectsPerSlab) ∧
    (∀ s ∈ (slabDealloc c9Mid 4194332 1024).slabsFree, s.objectsInUse = 0) :=
  slab_list_invariants 1024 0 (slabDealloc c9Mid 4194332 1024) (by decide) rfl
    (ReachCache.dealloc c9Mid 4194332 1024
      (ReachCache.alloc c9New 1024 (some 4194304) (some 4194332) c9Mid
        (ReachCache.init c9New rfl)
        (fun a _ => List.not_mem_nil a)
        rfl))

/-! ### Heap size-class dispatch (C3) -/

theorem alignedAddr_le {base ra : Nat} (hra : 0 < ra) :
    alignedAddr base ra ≤ base + ra - 1 := by
  unfold alignedAddr
  split
  · omega
  · exact Nat.sub_le _ _

set_option maxRecDepth 400000

/-- C3: (i) for every request size `1 ≤ n ≤ 1024` the selected index is
the first cache class with `class_size ≥ n`, and that class is the
smallest element of `CACHE_SIZES` that is `≥ n`; (ii) the global
allocator dispatches the request to exactly that cache; (iii) a non-null
pointer returned by `SlabCache::alloc` lies within a slab of the
resulting cache (assuming every free-list entry lies within its slab);
(iv) every request of more than 1024 bytes fails. -/
theorem heap_size_class_dispatch :
    (∀ n, n ≤ 1024 → 0 < n →
      ∃ i, i < 9 ∧ CACHE_SIZES.findIdx? (fun cs => n ≤ cs) = some i ∧
        n ≤ CACHE_SIZES.getD i 0 ∧
        ∀ cs ∈ CACHE_SIZES, n ≤ cs → CACHE_SIZES.getD i 0 ≤ cs) ∧
    (∀ (caches : List SlabCache) (n : Nat) (br : Option Nat) (i : Nat) (cache : SlabCache),
      0 < n →
      CACHE_SIZES.findIdx? (fun cs => n ≤ cs) = some i →
      caches.get? i = some cache →
      kernelAlloc caches n br =
        (slabAlloc cache n br).map fun rc => (rc.1, caches.set i rc.2)) ∧
    (∀ (cache : SlabCache) (n : Nat) (br : Option Nat) (p : Nat) (c' : SlabCache),
      (∀ s ∈ allSlabs cache, ∀ q ∈ s.freeList,
        s.addr ≤ q ∧ q < s.addr + (1 <<< cache.slabOrder) * PAGE_SIZE) →
      slabAlloc cache n br = .ok (some p, c') →
      ∃ s ∈ allSlabs c', s.addr ≤ p ∧ p < s.addr + (1 <<< cache.slabOrder) * PAGE_SIZE) ∧
    (∀ (caches : List SlabCache) (n : Nat) (br : Option Nat),
      1024 < n → kernelAlloc caches n br = .error "dealloc: No suitable cache found") := by
  refine ⟨?_, ?_, ?_, ?_⟩
  · decide
  · intro caches n br i cache hn hidx hget
    unfold kernelAlloc
    rw [if_neg (by omega : ¬n = 0), hidx]
    dsimp only
    rw [hget]
  · intro cache n br p c' hrange hstep
    unfold slabAlloc at hstep
    split at hstep
    · exact Except.noConfusion hstep
    split at hstep
    next hP =>
      split at hstep
      next hPe =>
        injection hstep with hstep
        injection hstep with h1 h2
        exact Option.noConfusion h1
      next s rest hPe =>
        injection hstep with hstep
        cases hfl : s.freeList with
        | nil =>
          unfold addObject at hstep
          rw [hfl] at hstep
          dsimp only at hstep
          injection hstep with h1 h2
          exact Option.noConfusion h1
        | cons q t =>
          have hsm : s ∈ allSlabs cache := by
            unfold allSlabs
            rw [hPe]
            exact List.mem_append.mpr (Or.inl
              (List.mem_append.mpr (Or.inr (List.mem_cons_self _ _))))
          have hq := hrange s hsm q (by rw [hfl]; exact List.mem_cons_self _ _)
          unfold addObject at hstep
          rw [hfl] at hstep
          dsimp only at hstep
          split at hstep
          next hc =>
            injection hstep with h1 h2
            injection h1 with h1
            subst h1
            subst h2
            refine ⟨⟨s.addr, s.baseVaddr, s.objectsInUse + 1, t⟩, ?_, hq⟩
            unfold allSlabs
            dsimp only
            exact List.mem_append.mpr (Or.inl
              (List.mem_append.mpr (Or.inl (List.mem_cons_self _ _))))
          next hc =>
            injection hstep with h1 h2
            injection h1 with h1
            subst h1
            subst h2
            refine ⟨⟨s.addr, s.baseVaddr, s.objectsInUse + 1, t⟩, ?_, hq⟩
            unfold allSlabs
            dsimp only
            exact List.mem_append.mpr (Or.inl
              (List.mem_append.mpr (Or.inr (List.mem_cons_self _ _))))
    next hP =>
      split at hstep
      next hF =>
        split at hstep
        next hFe =>
          injection hstep with hstep
          injection hstep with h1 h2
          exact Option.noConfusion h1
        next s rest hFe =>
          injection hstep with hstep
          cases hfl : s.freeList with
          | nil =>
            unfold addObject at hstep
            rw [hfl] at hstep
            dsimp only at hstep
            injection hstep with h1 h2
            exact Option.noConfusion h1
          | cons q t =>
            have hsm : s ∈ allSlabs cache := by
              unfold allSlabs
              rw [hFe]
              exact List.mem_append.mpr (Or.inr (List.mem_cons_self _ _))
            have hq := hrange s hsm q (by rw [hfl]; exact List.mem_cons_self _ _)
            unfold addObject at hstep
            rw [hfl] at hstep
            dsimp only at hstep
            split at hstep
            next hc =>
              injection hstep with h1 h2
              injection h1 with h1
              subst h1
              subst h2
              refine ⟨⟨s.addr, s.baseVaddr, s.objectsInUse + 1, t⟩, ?_, hq⟩
              unfold allSlabs
              dsimp only
              exact List.mem_append.mpr (Or.inl
                (List.mem_append.mpr (Or.inl (List.mem_cons_self _ _))))
            next hc =>
              injection hstep with h1 h2
              injection h1 with h1
              subst h1
              subst h2
              refine ⟨⟨s.addr, s.baseVaddr, s.objectsInUse + 1, t⟩, ?_, hq⟩
              unfold allSlabs
              dsimp only
              exact List.mem_append.mpr (Or.inl
                (List.mem_append.mpr (Or.inr (List.mem_cons_self _ _))))
      next hF =>
        split at hstep
        · injection hstep with hstep
          injection hstep with h1 h2
          exact Option.noConfusion h1
        next a =>
          split at hstep
          next ha =>
            injection hstep with hstep
            injection hstep with h1 h2
            exact Option.noConfusion h1
          next ha =>
            dsimp only at hstep
            split at hstep
            next hsf => exact Except.noConfusion hstep
            next chain hsf =>
              split at hstep
              next => exact Except.noConfusion hstep
              next obj restChain =>
                injection hstep with hstep
                injection hstep with h1 h2
                injection h1 with h1
                subst h1
                subst h2
                unfold setupFreeList at hsf
                split at hsf
                · exact Option.noConfusion hsf
                next hcond =>
                  injection hsf with hsf
                  have hobj : obj ∈ (List.range
                      ((a + (1 <<< cache.slabOrder) * PAGE_SIZE -
                        alignedAddr (a + SLAB_METADATA_SIZE) OBJ_ALIGN) /
                          cache.objectSize)).map
                      (fun i => alignedAddr (a + SLAB_METADATA_SIZE) OBJ_ALIGN +
                        i * cache.objectSize) := by
                    rw [hsf]
                    exact List.mem_cons_self _ _
                  obtain ⟨i, hi, hobj⟩ := List.mem_map.mp hobj
                  have hi' := List.mem_range.mp hi
                  have hm : SLAB_METADATA_SIZE = 28 := rfl
                  have ho : OBJ_ALIGN = 4 := rfl
                  have hp4 : PAGE_SIZE = 4096 := rfl
                  have hga : a + SLAB_METADATA_SIZE ≤
                      alignedAddr (a + SLAB_METADATA_SIZE) OBJ_ALIGN :=
                    alignedAddr_ge (by decide)
                  have hgu : alignedAddr (a + SLAB_METADATA_SIZE) OBJ_ALIGN ≤
                      a + SLAB_METADATA_SIZE + OBJ_ALIGN - 1 :=
                    alignedAddr_le (by decide)
                  have hS : PAGE_SIZE ≤ (1 <<< cache.slabOrder) * PAGE_SIZE :=
                    Nat.le_mul_of_pos_left _ (by
                      rw [Nat.shiftLeft_eq, one_mul]
                      exact Nat.two_pow_pos _)
                  have hsz : 0 < cache.objectSize := by
                    rcases Nat.eq_zero_or_pos cache.objectSize with h0 | h0
                    · exact absurd (Or.inr (by omega)) hcond
                    · exact h0
                  have hcnt : 0 < (a + (1 <<< cache.slabOrder) * PAGE_SIZE -
                      alignedAddr (a + SLAB_METADATA_SIZE) OBJ_ALIGN) /
                        cache.objectSize := by omega
                  have hdm := Nat.div_mul_le_self
                    (a + (1 <<< cache.slabOrder) * PAGE_SIZE -
                      alignedAddr (a + SLAB_METADATA_SIZE) OBJ_ALIGN) cache.objectSize
                  have himul : i * cache.objectSize + cache.objectSize ≤
                      ((a + (1 <<< cache.slabOrder) * PAGE_SIZE -
                        alignedAddr (a + SLAB_METADATA_SIZE) OBJ_ALIGN) /
                          cache.objectSize) * cache.objectSize := by
                    have := Nat.succ_le_of_lt hi'
                    calc i * cache.objectSize + cache.objectSize
                        = (i + 1) * cache.objectSize := by ring
                      _ ≤ ((a + (1 <<< cache.slabOrder) * PAGE_SIZE -
                          alignedAddr (a + SLAB_METADATA_SIZE) OBJ_ALIGN) /
                            cache.objectSize) * cache.objectSize :=
                        Nat.mul_le_mul_right _ this
                  refine ⟨⟨a, alignedAddr (a + SLAB_METADATA_SIZE) OBJ_ALIGN, 1,
                    if ((a + (1 <<< cache.slabOrder) * PAGE_SIZE -
                      alignedAddr (a + SLAB_METADATA_SIZE) OBJ_ALIGN) /
                        cache.objectSize) > 1 then restChain else []⟩, ?_, ?_, ?_⟩
                  · unfold allSlabs
                    dsimp only
                    exact List.mem_append.mpr (Or.inl (List.mem_append.mpr
                      (Or.inr (List.mem_append.mpr (Or.inr (List.mem_cons_self _ _))))))
                  · show a ≤ obj
                    omega
                  · show obj < a + (1 <<< cache.slabOrder) * PAGE_SIZE
                    omega
  · intro caches n br hn
    unfold kernelAlloc
    rw [if_neg (by omega : ¬n = 0)]
    have hnone : CACHE_SIZES.findIdx? (fun cs => n ≤ cs) = none := by
      rw [List.findIdx?_eq_none_iff]
      intro x hx
      simp only [decide_eq_false_iff_not]
      intro hle
      have hx' : x ≤ 1024 := by
        simp only [CACHE_SIZES, List.mem_cons, List.not_mem_nil, or_false] at hx
        rcases hx with rfl|rfl|rfl|rfl|rfl|rfl|rfl|rfl|rfl <;> norm_num
      omega
    rw [hnone]

/-- The kernel's cache array, as built by `memory_init`. -/
def c3Caches : List SlabCache :=
  CACHE_SIZES.map fun s =>
    { slabsFull := [], slabsPartial := [], slabsFree := [],
      objectSize := s, slabOrder := 0,
      objectsPerSlab := (PAGE_SIZE - SLAB_METADATA_SIZE) / s }

/-- The 128-byte cache, at index 5 of the cache array. -/
def c3Cache5 : SlabCache :=
  { slabsFull := [], slabsPartial := [], slabsFree := [],
    objectSize := 128, slabOrder := 0, objectsPerSlab := 31 }

/-- `c9Mid` after allocating one more 1024-byte object. -/
def c3After : SlabCache :=
  { slabsFull := [], slabsPartial := [⟨4194304, 4194332, 2, [4196380]⟩],
    slabsFree := [], objectSize := 1024, slabOrder := 0, objectsPerSlab := 3 }

theorem heap_size_class_dispatch_witness :
    (∃ i, i < 9 ∧ CACHE_SIZES.findIdx? (fun cs => 100 ≤ cs) = some i ∧
      100 ≤ CACHE_SIZES.getD i 0 ∧
      ∀ cs ∈ CACHE_SIZES, 100 ≤ cs → CACHE_SIZES.getD i 0 ≤ cs) ∧
    kernelAlloc c3Caches 100 none =
      (slabAlloc c3Cache5 100 none).map (fun rc => (rc.1, c3Caches.set 5 rc.2)) ∧
    (∃ s ∈ allSlabs c3After, s.addr ≤ 4195356 ∧
      4195356 < s.addr + (1 <<< c9Mid.slabOrder) * PAGE_SIZE) ∧
    kernelAlloc c3Caches 2000 none = .error "dealloc: No suitable cache found" :=
  ⟨heap_size_class_dispatch.1 100 (by decide) (by decide),
   heap_size_class_dispatch.2.1 c3Caches 100 none 5 c3Cache5 (by decide) (by decide) rfl,
   heap_size_class_dispatch.2.2.1 c9Mid 1024 none 4195356 c3After (by decide) rfl,
   heap_size_class_dispatch.2.2.2 c3Caches 2000 none (by decide)⟩

/-! ### Slab LIFO (C8) -/

/-- A 1024-byte cache with two partial slabs: slab A at `0x1000` (one
object in use, free list `[5148, 6172]`) and slab B at `0x2000` (two
objects in use, free list `[10268]`). -/
def c8Cache : SlabCache :=
  { slabsFull := [],
    slabsPartial := [⟨4096, 4124, 1, [5148, 6172]⟩, ⟨8192, 8220, 2, [10268]⟩],
    slabsFree := [], objectSize := 1024, slabOrder := 0, objectsPerSlab := 3 }

/-- `c8Cache` after freeing object `9244` of slab B and then allocating
once: the allocation pops slab A from the front of the partial list. -/
def c8After : SlabCache :=
  { slabsFull := [],
    slabsPartial := [⟨4096, 4124, 2, [6172]⟩, ⟨8192, 8220, 1, [9244, 10268]⟩],
    slabsFree := [], objectSize := 1024, slabOrder := 0, objectsPerSlab := 3 }

/-- C8 counterexample: freeing object `9244` (which belongs to slab B)
and then allocating with the same layout returns `5148` — the head of
slab A's free list, because `alloc` pops the FRONT of the partial list
while the freed slab B sits behind it — not the just-freed `9244`. -/
theorem slab_lifo_counterexample :
    slabAlloc (slabDealloc c8Cache 9244 1024) 1024 none = .ok (some 5148, c8After) ∧
    (5148 : Nat) ≠ 9244 :=
  ⟨rfl, by decide⟩

theorem slabAlloc_pop_partial (c : SlabCache) (s : Slab) (rest : List Slab)
    (ls : Nat) (br : Option Nat) (q : Nat) (t : List Nat)
    (hl : ls ≤ c.objectSize) (hP : c.slabsPartial = s :: rest)
    (hfl : s.freeList = q :: t) :
    ∃ c'', slabAlloc c ls br = .ok (some q, c'') := by
  refine ⟨(addObject {c with slabsPartial := rest} s).2, ?_⟩
  unfold slabAlloc
  rw [if_neg (not_not_intro hl), hP,
    if_pos (show (s :: rest).isEmpty = false from rfl)]
  dsimp only
  exact congrArg Except.ok (Prod.ext (addObject_fst hfl) rfl)

theorem slabAlloc_pop_free (c : SlabCache) (s : Slab) (rest : List Slab)
    (ls : Nat) (br : Option Nat) (q : Nat) (t : List Nat)
    (hl : ls ≤ c.objectSize) (hPe : c.slabsPartial = [])
    (hF : c.slabsFree = s :: rest) (hfl : s.freeList = q :: t) :
    ∃ c'', slabAlloc c ls br = .ok (some q, c'') := by
  refine ⟨(addObject {c with slabsFree := rest} s).2, ?_⟩
  unfold slabAlloc
  rw [if_neg (not_not_intro hl), hPe,
    if_neg (by decide : ¬(([] : List Slab).isEmpty = false)), hF,
    if_pos (show (s :: rest).isEmpty = false from rfl)]
  dsimp only
  exact congrArg Except.ok (Prod.ext (addObject_fst hfl) rfl)

/-- The slab record after pushing freed object `q` at the head of its
free list and decrementing `objects_in_use`, as `dealloc` does. -/
def slabAfterFree (s : Slab) (q : Nat) : Slab :=
  ⟨s.addr, s.baseVaddr, s.objectsInUse - 1, q :: s.freeList⟩

/-- C8 (amended): when the cache owns exactly one slab (and its lists
are consistent), freeing an object `q` of that slab and then allocating
with a layout of the same size returns `q` again. -/
theorem slab_lifo_single_slab (c : SlabCache) (s : Slab) (q ls : Nat) (br : Option Nat)
    (hone : allSlabs c = [s])
    (hfull : ∀ t ∈ c.slabsFull, t.objectsInUse = c.objectsPerSlab)
    (hpart : ∀ t ∈ c.slabsPartial, 0 < t.objectsInUse ∧ t.objectsInUse < c.objectsPerSlab)
    (hfree : ∀ t ∈ c.slabsFree, t.objectsInUse = 0)
    (hper : 0 < c.objectsPerSlab)
    (hq : q / ((1 <<< c.slabOrder) * PAGE_SIZE) * ((1 <<< c.slabOrder) * PAGE_SIZE) = s.addr)
    (hl : ls ≤ c.objectSize) :
    ∃ c'', slabAlloc (slabDealloc c q ls) ls br = .ok (some q, c'') := by
  unfold allSlabs at hone
  cases hFuC : c.slabsFull with
  | cons x xs =>
    rw [hFuC] at hone
    simp only [List.cons_append] at hone
    injection hone with h1 h2
    subst h1
    simp only [List.append_eq_nil] at h2
    obtain ⟨⟨h3, h4⟩, h5⟩ := h2
    subst h3
    have hs : x.objectsInUse = c.objectsPerSlab :=
      hfull x (by rw [hFuC]; exact List.mem_cons_self _ _)
    have hFind : findSlab c x.addr = some x := by
      unfold findSlab findSlabIn
      rw [hFuC]
      simp [List.find?]
    have hd : slabDealloc c q ls =
        {c with slabsFull := [], slabsPartial := [slabAfterFree x q]} := by
      unfold slabDealloc
      dsimp only
      rw [hq, hFind]
      dsimp only
      rw [if_pos hs, hFuC, h4]
      simp [eraseSlab, slabAfterFree]
    rw [hd]
    exact slabAlloc_pop_partial _ (slabAfterFree x q) [] ls br q x.freeList hl rfl rfl
  | nil =>
    rw [hFuC] at hone
    simp only [List.nil_append] at hone
    cases hPaC : c.slabsPartial with
    | cons x xs =>
      rw [hPaC] at hone
      simp only [List.cons_append] at hone
      injection hone with h1 h2
      subst h1
      simp only [List.append_eq_nil] at h2
      obtain ⟨h3, h4⟩ := h2
      subst h3
      have hbounds := hpart x (by rw [hPaC]; exact List.mem_cons_self _ _)
      have hFind : findSlab c x.addr = some x := by
        unfold findSlab findSlabIn
        rw [hFuC, hPaC]
        simp [List.find?]
      by_cases h1 : x.objectsInUse = 1
      · have hd : slabDealloc c q ls =
            {c with slabsPartial := [], slabsFree := [slabAfterFree x q]} := by
          unfold slabDealloc
          dsimp only
          rw [hq, hFind]
          dsimp only
          rw [if_neg (by omega), if_pos h1, hPaC, h4]
          simp [eraseSlab, slabAfterFree]
        rw [hd]
        exact slabAlloc_pop_free _ (slabAfterFree x q) [] ls br q x.freeList hl rfl rfl rfl
      · have hd : slabDealloc c q ls =
            {c with slabsPartial := [slabAfterFree x q]} := by
          unfold slabDealloc
          dsimp only
          rw [hq, hFind]
          dsimp only
          rw [if_neg (by omega), if_neg h1, hFuC, hPaC, h4]
          simp [replaceIn, slabAfterFree]
        rw [hd]
        exact slabAlloc_pop_partial _ (slabAfterFree x q) [] ls br q x.freeList hl rfl rfl
    | nil =>
      rw [hPaC] at hone
      simp only [List.nil_append] at hone
      have h0 : s.objectsInUse = 0 :=
        hfree s (by rw [hone]; exact List.mem_cons_self _ _)
      have hFind : findSlab c s.addr = some s := by
        unfold findSlab findSlabIn
        rw [hFuC, hPaC, hone]
        simp [List.find?]
      have hd : slabDealloc c q ls =
          {c with slabsFree := [slabAfterFree s q]} := by
        unfold slabDealloc
        dsimp only
        rw [hq, hFind]
        dsimp only
        rw [if_neg (by omega), if_neg (by omega), hFuC, hPaC, hone]
        simp [replaceIn, slabAfterFree]
      rw [hd]
      exact slabAlloc_pop_free _ (slabAfterFree s q) [] ls br q s.freeList hl hPaC rfl rfl

/-- A single-slab 1024-byte cache: one partial slab at `0x1000` with
objects `4124` and `5148` in use and `6172` free. -/
def c8Single : SlabCache :=
  { slabsFull := [], slabsPartial := [⟨4096, 4124, 2, [6172]⟩],
    slabsFree := [], objectSize := 1024, slabOrder := 0, objectsPerSlab := 3 }

theorem slab_lifo_single_slab_witness :
    ∃ c'', slabAlloc (slabDealloc c8Single 5148 1024) 1024 none = .ok (some 5148, c'') :=
  slab_lifo_single_slab c8Single ⟨4096, 4124, 2, [6172]⟩ 5148 1024 none rfl
    (by decide) (by decide) (by decide) (by decide) (by decide) (by decide)

end Ferrite
